import Mathlib

/-! ## MazeWalker: a shallow embedding of the core pipeline

This file embeds the algorithmic core of the MazeWalker repository
(`MazeWalker.py`, `MazeCell.py`, `CLProcessor.py`) into Lean 4 and proves
properties of the embedded code.

Conventions of the embedding:
* Python integers are `Nat`/`Int`; bit masks use `&&&`/`|||` on `Nat`.
* The numpy array of `Cell` objects is a `List (List Cell)`; in-place
  mutation becomes explicit state passing.
* Python list indexing `l[i]` (which supports negative wrap-around and
  raises `IndexError` out of range) is modelled by `pyIndex`/`mazeGet`
  returning `Option`.
* The recursive search is given an explicit fuel parameter; running out of
  fuel is a distinguished result, and we prove that enough fuel (one more
  than the number of unvisited cells) never runs out.
* Rendering code (`draw_maze`, `Cell.image`, captions, arrows) is display
  only and out of scope; it never touches `wall_index`, `visited` or
  `direction`.
-/

namespace MazeWalker

def wi_none : Nat := 0

def wi_left : Nat := 1

def wi_top : Nat := 2

def wi_right : Nat := 4

def wi_bottom : Nat := 8

def wi_all : Nat := 15

def wi_filled : Nat := 16

def go_nodir : Nat := 32

def go_left : Nat := 64

def go_up : Nat := 128

def go_right : Nat := 256

def go_down : Nat := 512

def go_none : Nat := 0

def wi_start : Nat := 1024

def wi_finish : Nat := 2048

/-- The state of one maze cell (`MazeCell.py`, class `Cell`).
`wall_index` is the navigational mask (private `__wall_index`, read through
the `wall_index()` method), `display_index` the display mask
(`__display_index`), `visited` and `direction` the public search-scoped
attributes set in `Cell.__init__`. The pixel-size/scale attributes only
affect rendering and are not modelled. -/
structure Cell where
  wall_index : Nat
  display_index : Nat
  visited : Bool
  direction : Nat
deriving Repr, DecidableEq

/-- `Cell.__init__(wall_index)`: sets both indices to the given mask, the
visited flag to `False` and the direction to `go_none`.  The constructor
raises `ValueError` for `wall_index > 4095`; every grid entry fed to it in
`create_maze` is a sum of distinct wall bits (≤ 15), so the guard is dead
at the embedded call sites and the constructor is modelled as total. -/
def Cell.init (wall_index : Nat) : Cell :=
  { wall_index := wall_index
    display_index := wall_index
    visited := false
    direction := go_none }

/-- `Cell.add_wall(wall_index)`: ORs the given bit(s) into the navigational
mask (`self.__wall_index |= wall_index`).  The method raises `ValueError`
for `wall_index > 16`; every call in `MazeWalker.py` passes one of the
constants `wi_left`, `wi_top`, `wi_right`, `wi_bottom` (≤ 8), so the guard
is dead at the embedded call sites and the method is modelled as total. -/
def Cell.add_wall (c : Cell) (wall_index : Nat) : Cell :=
  { c with wall_index := c.wall_index ||| wall_index }

/-! ## List surgery helpers

`listModify l i f` replaces the `i`-th element `a` of `l` by `f a` and is
the identity when `i` is out of range; it models in-place mutation of an
element that has already been successfully looked up. -/

def listModify {α : Type} (l : List α) (i : Nat) (f : α → α) : List α :=
  match l, i with
  | [], _ => []
  | a :: l, 0 => f a :: l
  | a :: l, i + 1 => a :: listModify l i f

/-- The maze: a `height × width` array of cells (`np.empty` filled row by
row in `create_maze`). -/
abbrev Maze := List (List Cell)

/-- Read `Maze[r][c]` for natural indices (used by `create_maze`, whose
loops stay inside the array bounds). -/
def cellAtN (m : Maze) (r c : Nat) : Option Cell :=
  (m.get? r).bind (fun row => row.get? c)

/-- Mutate the cell at natural position `(r, c)` in place; identity out of
range (the `create_maze` loops only address positions inside the array). -/
def mmodify (m : Maze) (r c : Nat) (f : Cell → Cell) : Maze :=
  listModify m r (fun row => listModify row c f)

/-- The first loop of `create_maze` (MazeWalker.py:204-206): one `Cell`
instance per grid entry, `Maze[row][col] = mzCell(grid[row][col])`. -/

def init_cells (grid : Nat → Nat → Nat) (maze_height maze_width : Nat) : Maze :=
  (List.range maze_height).map
    (fun row => (List.range maze_width).map (fun col => Cell.init (grid row col)))

/-- `Maze[r][c].wall_index() & bit` used as a truth value.  The `none`
case models an out-of-range lookup, which cannot occur in the in-range
loops of `create_maze`. -/
def wallHit (o : Option Cell) (bit : Nat) : Bool :=
  match o with
  | some cell => decide (cell.wall_index &&& bit ≠ 0)
  | none => false

/-- First statement of the propagation loop body (MazeWalker.py:214-218):
if the cell above has a bottom wall, add a top wall to this cell. -/
def prop_step_top (m : Maze) (row col : Nat) : Maze :=
  if 0 < row ∧ wallHit (cellAtN m (row - 1) col) wi_bottom then
    mmodify m row col (fun c => c.add_wall wi_top)
  else m

/-- Second statement of the propagation loop body (MazeWalker.py:220-224):
if the cell to the left has a right wall, add a left wall to this cell. -/
def prop_step_left (m : Maze) (row col : Nat) : Maze :=
  if 0 < col ∧ wallHit (cellAtN m row (col - 1)) wi_right then
    mmodify m row col (fun c => c.add_wall wi_left)
  else m

/-- The body of the propagation double loop (MazeWalker.py:212-224); the
two statements are sequential: the second reads the state left by the
first. -/
def prop_step (m : Maze) (row col : Nat) : Maze :=
  prop_step_left (prop_step_top m row col) row col

/-- The propagation double loop itself (row-major, as in the source). -/
def propagate (m : Maze) (maze_height maze_width : Nat) : Maze :=
  (List.range maze_height).foldl
    (fun m row =>
      (List.range maze_width).foldl (fun m col => prop_step m row col) m)
    m

/-- `if not Maze[0][col].wall_index() & wi_top: add_wall(wi_top)`
(MazeWalker.py:231-232). -/
def seal_top_step (m : Maze) (col : Nat) : Maze :=
  if ¬ wallHit (cellAtN m 0 col) wi_top then
    mmodify m 0 col (fun c => c.add_wall wi_top)
  else m

/-- `if not Maze[maze_height-1][col].wall_index() & wi_bottom:
add_wall(wi_bottom)` (MazeWalker.py:233-234). -/
def seal_bottom_step (maze_height : Nat) (m : Maze) (col : Nat) : Maze :=
  if ¬ wallHit (cellAtN m (maze_height - 1) col) wi_bottom then
    mmodify m (maze_height - 1) col (fun c => c.add_wall wi_bottom)
  else m

/-- One iteration of the first sealing loop (MazeWalker.py:230-234). -/
def seal_tb_step (maze_height : Nat) (m : Maze) (col : Nat) : Maze :=
  seal_bottom_step maze_height (seal_top_step m col) col

/-- `if not Maze[row][0].wall_index() & wi_left: add_wall(wi_left)`
(MazeWalker.py:237-238). -/
def seal_left_step (m : Maze) (row : Nat) : Maze :=
  if ¬ wallHit (cellAtN m row 0) wi_left then
    mmodify m row 0 (fun c => c.add_wall wi_left)
  else m

/-- `if not Maze[row][maze_width-1].wall_index() & wi_right:
add_wall(wi_right)` (MazeWalker.py:239-240). -/
def seal_right_step (maze_width : Nat) (m : Maze) (row : Nat) : Maze :=
  if ¬ wallHit (cellAtN m row (maze_width - 1)) wi_right then
    mmodify m row (maze_width - 1) (fun c => c.add_wall wi_right)
  else m

/-- One iteration of the second sealing loop (MazeWalker.py:236-240). -/
def seal_lr_step (maze_width : Nat) (m : Maze) (row : Nat) : Maze :=
  seal_right_step maze_width (seal_left_step m row) row

/-- `create_maze(grid)` (MazeWalker.py:159-242): instantiate the cells,
propagate shared walls, then seal the outer boundary. -/
def create_maze (grid : Nat → Nat → Nat) (maze_height maze_width : Nat) : Maze :=
  let m0 := init_cells grid maze_height maze_width
  let m1 := propagate m0 maze_height maze_width
  let m2 := (List.range maze_width).foldl (seal_tb_step maze_height) m1
  (List.range maze_height).foldl (seal_lr_step maze_width) m2

/-! ## Bit-level helpers -/

/-- The navigational wall mask of cell `(r, c)` after the propagation
double loop: the scanned entry, plus a top wall when the cell above was
scanned with a bottom wall, plus a left wall when the cell to the left was
scanned with a right wall. -/
def prop_wall (grid : Nat → Nat → Nat) (r c : Nat) : Nat :=
  grid r c ||| (if 0 < r ∧ grid (r - 1) c &&& wi_bottom ≠ 0 then wi_top else 0)
           ||| (if 0 < c ∧ grid r (c - 1) &&& wi_right ≠ 0 then wi_left else 0)

/-- The full cell state after the propagation double loop. -/
def cell1 (grid : Nat → Nat → Nat) (r c : Nat) : Cell :=
  { wall_index := prop_wall grid r c
    display_index := grid r c
    visited := false
    direction := go_none }

/-- Expected cell contents while the propagation loop has processed all
positions strictly before `(R, C)` in row-major order. -/
def cellExpect (grid : Nat → Nat → Nat) (h w R C r c : Nat) : Option Cell :=
  if r < h ∧ c < w then
    some (if r < R ∨ (r = R ∧ c < C) then cell1 grid r c else Cell.init (grid r c))
  else none

/-- The cell state at `(r, c)` between the two statements of the
propagation loop body at `(r, c)` (top wall possibly added, left wall not
yet considered). -/
def cellMid (grid : Nat → Nat → Nat) (r c : Nat) : Cell :=
  { wall_index :=
      grid r c ||| (if 0 < r ∧ grid (r - 1) c &&& wi_bottom ≠ 0 then wi_top else 0)
    display_index := grid r c
    visited := false
    direction := go_none }

/-- Cell contents after the top/bottom sealing loop has processed columns
`0 … K-1`. -/
def cellTB (grid : Nat → Nat → Nat) (h K r c : Nat) : Cell :=
  { wall_index :=
      prop_wall grid r c
        ||| (if r = 0 ∧ c < K then wi_top else 0)
        ||| (if r = h - 1 ∧ c < K then wi_bottom else 0)
    display_index := grid r c
    visited := false
    direction := go_none }

/-- Cell contents after the full top/bottom sealing loop and the first `K`
rows of the left/right sealing loop. -/
def cellLR (grid : Nat → Nat → Nat) (h w K r c : Nat) : Cell :=
  { wall_index :=
      prop_wall grid r c
        ||| (if r = 0 ∧ c < w then wi_top else 0)
        ||| (if r = h - 1 ∧ c < w then wi_bottom else 0)
        ||| (if c = 0 ∧ r < K then wi_left else 0)
        ||| (if c = w - 1 ∧ r < K then wi_right else 0)
    display_index := grid r c
    visited := false
    direction := go_none }

/-- A wall grid as the scanner produces it: entries are sums of distinct
wall bits, with a LEFT bit only in column 0 and a TOP bit only in row 0
(interior cells encode only RIGHT/BOTTOM). -/
def scanner_grid (grid : Nat → Nat → Nat) (h w : Nat) : Prop :=
  ∀ r c, r < h → c < w →
    grid r c < 16 ∧
    (0 < c → (grid r c).testBit 0 = false) ∧
    (0 < r → (grid r c).testBit 1 = false)

/-- Resolve a Python list index against a list length: non-negative
in-range indices are used as-is, negatives wrap from the end, everything
else raises `IndexError` (modelled as `none`). -/
def pyIndex (n : Nat) (i : Int) : Option Nat :=
  if 0 ≤ i ∧ i < (n : Int) then some i.toNat
  else if -(n : Int) ≤ i ∧ i < 0 then some (i + n).toNat
  else none

/-- `maze[r][c]` with Python indexing semantics. -/
def mazeGet (m : Maze) (r c : Int) : Option Cell :=
  match pyIndex m.length r with
  | none => none
  | some i =>
    match m.get? i with
    | none => none
    | some row =>
      match pyIndex row.length c with
      | none => none
      | some j => row.get? j

/-- Mutate the cell object obtained from `maze[r][c]` in place.  Every use
in `navigate_maze` follows a successful `mazeGet` at the same indices, so
the out-of-range identity branches are unreachable. -/
def mmodifyZ (m : Maze) (r c : Int) (f : Cell → Cell) : Maze :=
  match pyIndex m.length r with
  | none => m
  | some i =>
    listModify m i (fun row =>
      match pyIndex row.length c with
      | none => row
      | some j => listModify row j f)

/-- A cell coordinate `(row, col)` as used by the search. -/
abbrev Coord := Int × Int

/-- The solved-flag sentinel `(-1, -1)`. -/
def sentinel : Coord := (-1, -1)

/-- A path: an ordered list of coordinates. -/
abbrev Path := List Coord

/-- Result of a `navigate_maze` call: either the fuel ran out (never
happens with enough fuel, see `navigate_fuel_sufficient`), or a Python
`IndexError` escaped (carrying the mutated state), or the call returned
`_maze_path` (carrying the mutated maze and the shared `all_paths`
accumulator). -/
inductive NavRes where
  | fuelOut : NavRes
  | err : Maze → List Path → NavRes
  | ret : Path → Maze → List Path → NavRes
deriving Repr, DecidableEq

/-- Sequencing of statements after a recursive call: `IndexError` and
fuel exhaustion propagate, a normal return feeds the updated
`_maze_path` / maze / `all_paths` to the continuation. -/
def NavRes.andThen (r : NavRes) (f : Path → Maze → List Path → NavRes) : NavRes :=
  match r with
  | .fuelOut => .fuelOut
  | .err m a => .err m a
  | .ret p m a => f p m a

/-- One `# Try to move <dir>` block of `navigate_maze`
(MazeWalker.py:430-453): if the wall bit is clear and the solved flag is
not set, record the direction on the current cell and recurse into the
neighbouring cell.  `nav` is the recursive call at the remaining fuel. -/
def try_move (nav : Maze → Coord → Path → List Path → NavRes)
    (row col : Int) (wallBit dirVal : Nat) (next_cell : Coord)
    (maze : Maze) (_maze_path : Path) (all_paths : List Path) : NavRes :=
  match mazeGet maze row col with
  | none => .err maze all_paths
  | some cell =>
    if cell.wall_index &&& wallBit = 0 ∧ _maze_path.head? ≠ some sentinel then
      let maze := mmodifyZ maze row col (fun c => { c with direction := dirVal })
      nav maze next_cell _maze_path all_paths
    else .ret _maze_path maze all_paths

/-- `navigate_maze(maze, from_cell, to_cell, maze_path, all_paths)`
(MazeWalker.py:345-465), with explicit fuel.

* destination reached: append `from_cell`, prepend the sentinel, return;
* previously visited cell, or solved flag already present: return the
  path unchanged (`_maze_path[0]` on an empty path raises `IndexError`);
* otherwise mark the cell visited, append it, try left / up / right /
  down in order, and finally — when still unsolved — record the dead end
  into `all_paths` and pop the cell. -/
def navigate_maze : Nat → Maze → Coord → Coord → Path → List Path → NavRes
  | 0, _, _, _, _, _ => .fuelOut
  | fuel + 1, maze, from_cell, to_cell, maze_path, all_paths =>
    -- `_maze_path = maze_path.copy()`
    let _maze_path := maze_path
    let row := from_cell.1
    let col := from_cell.2
    if from_cell = to_cell then
      .ret (sentinel :: (_maze_path ++ [from_cell])) maze all_paths
    else
      match mazeGet maze row col with
      | none => .err maze all_paths
      | some cell =>
        if cell.visited then .ret _maze_path maze all_paths
        else
          match _maze_path.head? with
          | none => .err maze all_paths
          | some h =>
            if h = sentinel then .ret _maze_path maze all_paths
            else
              let _maze_path := _maze_path ++ [from_cell]
              let maze := mmodifyZ maze row col (fun c => { c with visited := true })
              (try_move (fun m nc p a => navigate_maze fuel m nc to_cell p a) row col wi_left go_left
                  (row, col - 1) maze _maze_path all_paths).andThen
                (fun p m a =>
                  (try_move (fun m nc p a => navigate_maze fuel m nc to_cell p a) row col wi_top go_up
                      (row - 1, col) m p a).andThen
                    (fun p m a =>
                      (try_move (fun m nc p a => navigate_maze fuel m nc to_cell p a) row col wi_right go_right
                          (row, col + 1) m p a).andThen
                        (fun p m a =>
                          (try_move (fun m nc p a => navigate_maze fuel m nc to_cell p a) row col wi_bottom go_down
                              (row + 1, col) m p a).andThen
                            (fun p m a =>
                              if p.head? ≠ some sentinel then
                                .ret p.dropLast m (a ++ [p])
                              else .ret p m a))))

/-- Result of `find_paths`. The Python function returns
`(maze_path, [])` when the first search produced more than one entry and
`(from_start, from_finish)` otherwise; the two shapes are distinguished
here by constructor. -/
inductive FPRes where
  | fuelOut : FPRes
  | err : FPRes
  | success : Path → Maze → List Path → FPRes
  | failure : List Path → List Path → Maze → FPRes
deriving Repr, DecidableEq

/-- The two `for row in maze: for cell in row: cell.clear_navigation`
loops of `find_paths` (MazeWalker.py:510-512 and 533-535).  The attribute
is looked up but never called (the parentheses are missing), so the loops
mutate nothing; the bound-method objects are discarded.  (Had it been
called, `Cell.clear_navigation` itself would raise `AttributeError`: its
body reads `self.go.none`, MazeCell.py:464, and no attribute `go`
exists.) -/
def clear_navigation_loop (maze : Maze) : Maze := maze

/-- `Cell.clear_navigation` (MazeCell.py:444-465) as written: the body
evaluates `self.go.none`, which raises `AttributeError` before any state
is touched — the method can never complete. -/
def Cell.clear_navigation (_ : Cell) : Option Cell := none

/-- `find_paths(maze, start_cell, finish_cell)` (MazeWalker.py:467-551):
run the search from start; if the returned path has more than one entry
return it (`success`), otherwise search again from the finish cell and
return both dead-end collections (`failure`). -/
def find_paths (fuel : Nat) (maze : Maze) (start_cell finish_cell : Coord) : FPRes :=
  match navigate_maze fuel (clear_navigation_loop maze)
      start_cell finish_cell [start_cell] [] with
  | .fuelOut => .fuelOut
  | .err _ _ => .err
  | .ret maze_path maze1 from_start =>
    if maze_path.length > 1 then .success maze_path maze1 from_start
    else
      match navigate_maze fuel (clear_navigation_loop maze1)
          finish_cell start_cell [finish_cell] [] with
      | .fuelOut => .fuelOut
      | .err _ _ => .err
      | .ret _ maze3 from_finish => .failure from_start from_finish maze3

/-- The maze state on which `find_paths` invokes the second
`navigate_maze` call (after deciding the maze is unsolved and running the
parenthesis-less clear loop); `none` when the second call is not
reached. -/
def find_paths_mid (fuel : Nat) (maze : Maze) (start_cell finish_cell : Coord) :
    Option Maze :=
  match navigate_maze fuel (clear_navigation_loop maze)
      start_cell finish_cell [start_cell] [] with
  | .fuelOut => none
  | .err _ _ => none
  | .ret maze_path maze1 _ =>
    if maze_path.length > 1 then none
    else some (clear_navigation_loop maze1)

/-! ## CLProcessor.py / MazeWalker.py: the solve operation -/

/-- The bounds block of `CLProcessor.__check_inputs`
(CLProcessor.py:341-356): `x in range(n)` is `0 ≤ x < n`.  Note the
checks compare component 0 of each cell against `width` and component 1
against `height`, while `solve_maze` indexes the maze as
`Maze[(row, col)]` with `height` rows. -/
def check_inputs (width height : Nat) (start_cell finish_cell : Coord) : Bool :=
  decide (0 ≤ start_cell.1 ∧ start_cell.1 < (width : Int)) &&
  decide (0 ≤ finish_cell.1 ∧ finish_cell.1 < (width : Int)) &&
  decide (0 ≤ start_cell.2 ∧ start_cell.2 < (height : Int)) &&
  decide (0 ≤ finish_cell.2 ∧ finish_cell.2 < (height : Int))

/-- `Cell.set_direction(direction)` (MazeCell.py:400-442).  On an invalid
value the method *returns* (not raises) a `ValueError` object, leaving the
cell unchanged; otherwise it strips any direction bits from
`display_index` and adds the new one.  Touches `display_index` only. -/
def Cell.set_direction (c : Cell) (direction : Nat) : Cell :=
  if direction ∉ [go_none, go_nodir, go_left, go_up, go_right, go_down] then c
  else
    let d := c.display_index
    let d := if d &&& go_nodir ≠ 0 then d - go_nodir else d
    let d := if d &&& go_left ≠ 0 then d - go_left else d
    let d := if d &&& go_up ≠ 0 then d - go_up else d
    let d := if d &&& go_right ≠ 0 then d - go_right else d
    let d := if d &&& go_down ≠ 0 then d - go_down else d
    { c with display_index := d + direction }

/-- `Cell.set_as_start()` (MazeCell.py:467-493): display flag only. -/
def Cell.set_as_start (c : Cell) : Cell :=
  if c.display_index &&& wi_start = 0 then
    let d := if c.display_index &&& wi_finish ≠ 0 then
      c.display_index - wi_finish else c.display_index
    { c with display_index := d + wi_start }
  else c

/-- `Cell.set_as_finish(show_dot)` (MazeCell.py:495-525): display flag
plus a direction marker; `display_index` only. -/
def Cell.set_as_finish (c : Cell) (show_dot : Bool) : Cell :=
  let c1 :=
    if c.display_index &&& wi_finish = 0 then
      let d := if c.display_index &&& wi_start ≠ 0 then
        c.display_index - wi_start else c.display_index
      { c with display_index := d + wi_finish }
    else c
  if show_dot then c1.set_direction go_nodir else c1.set_direction go_none

/-- `Maze[cell] = <mutation>` guarded by the lookup `Maze[cell]` itself:
`none` models the `IndexError` numpy raises for an out-of-range tuple
index (negative indices wrap, as in `pyIndex`). -/
def mazeModify? (m : Maze) (r c : Int) (f : Cell → Cell) : Option Maze :=
  match mazeGet m r c with
  | none => none
  | some _ => some (mmodifyZ m r c f)

/-! ## MazeWalker.py: `find_suggestions` -/

/-- A machine-readable suggestion `(row, col, wall_index)`. -/
abbrev Coord3 := Int × Int × Nat

/-- `calc_distance(t1, t2)` (MazeWalker.py:602-629) returns the float
`((t1[0]-t2[0])**2 + (t1[1]-t2[1])**2) ** 0.5`; its only use compares the
result against the literal `1.0`, and for integer coordinates the float
square root equals `1.0` exactly iff the squared distance is `1` (the
square of the difference is an exactly-representable integer, and the
correctly rounded square root of an integer `≥ 2` is `≥ sqrt 2 > 1` while
`sqrt 0 = 0`).  We therefore embed the squared distance and compare it
with `1`. -/
def calc_distance_sq (t1 t2 : Coord) : Int :=
  (t1.1 - t2.1) ^ 2 + (t1.2 - t2.2) ^ 2

/-- The `row_shift`/`col_shift` dispatch of `find_suggestions`
(MazeWalker.py:657-678); the final `else` raises `ValueError`
("Internal error processing non-adjacent cells"). -/
def wallFromShift (c0 c1 : Coord) : Except Unit Nat :=
  let row_shift := c0.1 - c1.1
  let col_shift := c0.2 - c1.2
  if row_shift = -1 then .ok wi_bottom
  else if row_shift = 1 then .ok wi_top
  else if col_shift = -1 then .ok wi_right
  else if col_shift = 1 then .ok wi_left
  else .error ()

/-- The inner body of the `find_suggestions` double loop for one pair of
paths (MazeWalker.py:644-685): the cross product of their cells, filtered
to pairs at (squared) distance 1, each mapped to the wall of the
start-side cell that would need removal. -/
def candidate_coords (fStart fFinish : Path) : Except Unit (List Coord3) :=
  let pairs := fStart.bind (fun i => fFinish.map (fun j => (i, j)))
  let candidates := pairs.filter (fun ij => calc_distance_sq ij.1 ij.2 = 1)
  candidates.foldlM (fun acc ij =>
    (wallFromShift ij.1 ij.2).map (fun wall => acc ++ [(ij.1.1, ij.1.2, wall)])) []

/-- `list(set(lst))`: removes duplicates.  CPython's set iteration order
is hash-dependent and unspecified; it is modelled here as keeping the
first occurrence of each element, which in general is not sorted. -/
def dedupFirst {α : Type} [DecidableEq α] (l : List α) : List α :=
  l.foldl (fun acc x => if x ∈ acc then acc else acc ++ [x]) []

/-- `find_suggestions(from_start, from_finish)` (MazeWalker.py:553-693),
machine-readable part.  The human-readable `suggestions` strings are
display-only duplicates of the same data and are not modelled.  After
deduplication the source evaluates `coordinates.sort` *without
parentheses* (line 692): the bound method object is discarded and no sort
takes place, unlike `suggestions.sort()` on line 690 — so the returned
list stays in set-iteration order. -/
def find_suggestions (from_start from_finish : List Path) :
    Except Unit (List Coord3) :=
  (from_start.foldlM (fun acc fStart =>
    from_finish.foldlM (fun acc2 fFinish =>
      (candidate_coords fStart fFinish).map (fun cs => acc2 ++ cs)) acc) []).map
    dedupFirst

/-! ## `solve_maze` (MazeWalker.py:284-343) composed with the
`CLProcessor` validation that precedes it in both the CLI and GUI
drivers.  Image generation (`draw_maze`, `circle_wall`, the direction
markers set on the solution path, `set_as_finish(True)`) only touches
`display_index` or produces pixel buffers and is omitted. -/

inductive SolveErr where
  | valueError : SolveErr
  | indexError : SolveErr
  | internalError : SolveErr
deriving Repr, DecidableEq

inductive SolveOutcome where
  | solved : Path → SolveOutcome
  | unsolved : List Path → List Path → List Coord3 → SolveOutcome
deriving Repr, DecidableEq

inductive SolveRes where
  | fuelOut : SolveRes
  | error : SolveErr → SolveRes
  | ok : SolveOutcome → SolveRes
deriving Repr, DecidableEq

def solve (fuel : Nat) (maze : Maze) (width height : Nat)
    (start_cell finish_cell : Coord) : SolveRes :=
  if check_inputs width height start_cell finish_cell = false then
    -- CLProcessor.__check_inputs raises ValueError
    .error .valueError
  else
    -- `Maze[cmd_entry.start_cell].set_as_start()` (MazeWalker.py:286)
    match mazeModify? maze start_cell.1 start_cell.2 Cell.set_as_start with
    | none => .error .indexError
    | some maze =>
      -- `Maze[cmd_entry.finish_cell].set_as_finish()` (MazeWalker.py:287)
      match mazeModify? maze finish_cell.1 finish_cell.2
          (fun c => c.set_as_finish false) with
      | none => .error .indexError
      | some maze =>
        match find_paths fuel maze start_cell finish_cell with
        | .fuelOut => .fuelOut
        | .err => .error .indexError
        | .success maze_path _ _ =>
          -- `if from_start[0] == (-1, -1)` with from_start = maze_path
          if maze_path.head? = some sentinel then .ok (.solved maze_path)
          else
            -- dead branch: a returned path with more than one entry always
            -- starts with the sentinel; Python would fall through to
            -- find_suggestions iterating coordinate tuples as if they were
            -- paths
            .error .internalError
        | .failure from_start from_finish _ =>
          match from_start.head? with
          | none => .error .indexError   -- `from_start[0]` on an empty list
          | some _ =>
            -- a path (a list) never equals the tuple (-1, -1), so the
            -- comparison is False and the unsolved branch runs
            match find_suggestions from_start from_finish with
            | .error _ => .error .internalError  -- the ValueError of
                                                 -- find_suggestions
            | .ok coordinates =>
              .ok (.unsolved from_start from_finish coordinates)

/-! ## MazeWalker.py: `read_maze_file` — the flush rules of one scan line

Only the index arithmetic of the two flush sites is needed for the claims;
`scan_row` embeds the horizontal scan of a single row
(MazeWalker.py:73-110).  Wall-coloured pixels have value 0.  Float
arithmetic note: for the pixel indices and cell dimensions produced by
real images (far below 2^26) the float operations in the source are exact
rational arithmetic, so `ℚ` with `Int.floor` (Python `int()` truncation on
non-negative values) models them faithfully. -/

/-- `listAvg = lambda lst: int(sum(lst)/len(lst))` (MazeWalker.py:38):
float true division truncated by `int()`; floor division for these
non-negative values. -/
def listAvg (lst : List Nat) : Nat := lst.sum / lst.length

/-- The boundary index of a run closed by a white pixel
(MazeWalker.py:91): `int(listAvg(scan_index) / cell_width + 0.5)`.  With
non-negative operands `int()` truncation is the floor, and
`⌊a / c + 1/2⌋ = (2a + c) / (2c)` in natural division. -/
def cindex_closed (scan_index : List Nat) (cell_width : Nat) : Nat :=
  (2 * listAvg scan_index + cell_width) / (2 * cell_width)

/-- The boundary index of a run still open at the end of the scan line
(MazeWalker.py:105): `int(listAvg(scan_index) / cell_width)` — the
`+ 0.5` of the closed-run rule is absent; `⌊a / c⌋` is natural
division. -/
def cindex_open (scan_index : List Nat) (cell_width : Nat) : Nat :=
  listAvg scan_index / cell_width

/-- Effect of one flush on the wall grid row: `Grid[rows][0] = 1` for
boundary index 0, `Grid[rows][cindex - 1] += 4` otherwise. -/
inductive WallEvent where
  | leftOuter : WallEvent
  | rightAt : Nat → WallEvent
deriving Repr, DecidableEq

/-- Flush of a run closed by a white pixel (MazeWalker.py:91-95). -/
def flush_closed (scan_index : List Nat) (cell_width : Nat) : WallEvent :=
  let cindex := cindex_closed scan_index cell_width
  if cindex = 0 then .leftOuter else .rightAt (cindex - 1)

/-- Flush of a run still open at the end of the line
(MazeWalker.py:105-109). -/
def flush_open (scan_index : List Nat) (cell_width : Nat) : WallEvent :=
  let cindex := cindex_open scan_index cell_width
  if cindex = 0 then .leftOuter else .rightAt (cindex - 1)

/-- The horizontal scan of one row (MazeWalker.py:73-110): black pixels
accumulate their indices into `scan_index`; a white pixel flushes a
non-empty run with the closed-run rule; a run still open when the line
ends is flushed with the end-of-line rule. -/
def scan_row (line : List Nat) (cell_width : Nat) : List WallEvent :=
  let st := line.enum.foldl
    (fun (st : List WallEvent × List Nat) p =>
      if p.2 = 0 then (st.1, st.2 ++ [p.1])
      else if st.2 ≠ [] then (st.1 ++ [flush_closed st.2 cell_width], [])
      else st)
    ([], [])
  if st.2 ≠ [] then st.1 ++ [flush_open st.2 cell_width] else st.1

/-- Lexicographic (Python tuple) order on suggestions. -/
def coordLe (a b : Coord3) : Bool :=
  decide (a.1 < b.1) ||
    (a.1 == b.1 &&
      (decide (a.2.1 < b.2.1) || (a.2.1 == b.2.1 && decide (a.2.2 ≤ b.2.2))))

/-- Non-decreasing in the order `le` (Python's `list.sort()`
post-condition). -/
def isSortedBy {α : Type} (le : α → α → Bool) : List α → Bool
  | [] => true
  | [_] => true
  | a :: b :: rest => le a b && isSortedBy le (b :: rest)

/-- Every consecutive pair of coordinates lies at squared distance 1
(the grid-adjacency part of the spec's solved-path property). -/
def allAdjacent : List Coord → Bool
  | [] => true
  | [_] => true
  | u :: v :: rest => (calc_distance_sq u v == 1) && allAdjacent (v :: rest)

/-- The maze carried by a search result, when one was produced. -/
def NavRes.mazeOf : NavRes → Option Maze
  | .fuelOut => none
  | .err m _ => some m
  | .ret _ m _ => some m

/-- The wall masks of the maze, the part of the state the search never
writes. -/
def mazeWalls (m : Maze) : List (List Nat) :=
  m.map (fun row => row.map Cell.wall_index)

/-- Wall lookup in a wall grid, with the same Python index semantics as
`mazeGet`. -/
def wallsAt (W : List (List Nat)) (r c : Int) : Option Nat :=
  match pyIndex W.length r with
  | none => none
  | some i =>
    match W.get? i with
    | none => none
    | some row =>
      match pyIndex row.length c with
      | none => none
      | some j => row.get? j

/-- Number of cells whose visited flag is still clear. -/
def unvisitedCount (m : Maze) : Nat :=
  (m.map (fun row => row.countP (fun c => !c.visited))).sum

/-- Frame/monotonicity property of a search step: walls never change and
the set of visited cells only grows. -/
def Mono (m m' : Maze) : Prop :=
  mazeWalls m' = mazeWalls m ∧ unvisitedCount m' ≤ unvisitedCount m

/-- The maze carried by a `find_paths` result, when one was produced. -/
def FPRes.mazeOf : FPRes → Option Maze
  | .fuelOut => none
  | .err => none
  | .success _ m _ => some m
  | .failure _ _ m => some m

/-- Total number of cells of the maze. -/
def cellCount (m : Maze) : Nat := (m.map List.length).sum

/-- The maze has `height` rows of `width` cells each (the shape
`create_maze` produces from a `height × width` grid). -/
def mazeShape (m : Maze) (height width : Nat) : Prop :=
  m.length = height ∧ ∀ row ∈ m, row.length = width

/-- Out-of-bounds test used by C7: some component is negative or at least
the corresponding dimension (`start`/`finish` are `(row, col)` pairs, the
grid has `height` rows and `width` columns). -/
def outOfBounds (p : Coord) (height width : Nat) : Prop :=
  p.1 < 0 ∨ (height : Int) ≤ p.1 ∨ p.2 < 0 ∨ (width : Int) ≤ p.2

/-- One legal move of the search, expressed against a wall grid `W`: the
destination `v` is one of the four neighbours of `u` (left, up, right,
down — at Euclidean distance 1) and the corresponding wall bit of `u` is
clear.  This is the wall test `maze[row][col].wall_index() & wi_<dir>`
each `# Try to move` block performs. -/
def openStepW (W : List (List Nat)) (u v : Coord) : Prop :=
  ∃ wi, wallsAt W u.1 u.2 = some wi ∧
    ((v = (u.1, u.2 - 1) ∧ wi &&& wi_left = 0) ∨
     (v = (u.1 - 1, u.2) ∧ wi &&& wi_top = 0) ∨
     (v = (u.1, u.2 + 1) ∧ wi &&& wi_right = 0) ∨
     (v = (u.1 + 1, u.2) ∧ wi &&& wi_bottom = 0))

/-- Invariant carried through the return value of a `navigate_maze` call:
the path comes back unchanged, or it came back solved — the sentinel in
front, the caller's path, then a non-empty walk of legal moves from the
entered cell `f` to the destination `t`. -/
def RetShape (W : List (List Nat)) (f t : Coord) (p p' : Path) : Prop :=
  p' = p ∨ ∃ chain, p' = sentinel :: (p ++ chain) ∧ chain ≠ [] ∧
    chain.head? = some f ∧ chain.getLast? = some t ∧
    List.Chain' (openStepW W) chain

/-- Invariant between the direction blocks inside one call at cell `f`
with grown path `p1 = p ++ [f]`: either nothing happened yet, or some
block solved the maze and the path is sentinel-marked with a legal walk
`f → … → t` appended. -/
def StageInv (W : List (List Nat)) (f t : Coord) (p1 pc : Path) : Prop :=
  pc = p1 ∨ ∃ chain, pc = sentinel :: (p1 ++ chain) ∧ chain ≠ [] ∧
    chain.getLast? = some t ∧ List.Chain' (openStepW W) (f :: chain)

theorem listModify_length {α : Type} (l : List α) (i : Nat) (f : α → α) :
    (listModify l i f).length = l.length := by
  induction l generalizing i with
  | nil => rfl
  | cons a l ih =>
    cases i with
    | zero => rfl
    | succ i => simp [listModify, ih]

theorem get?_listModify {α : Type} (l : List α) (i j : Nat) (f : α → α) :
    (listModify l i f).get? j =
      if i = j then (l.get? j).map f else l.get? j := by
  induction l generalizing i j with
  | nil => simp [listModify]
  | cons a l ih =>
    cases i with
    | zero =>
      cases j with
      | zero => simp [listModify]
      | succ j => simp [listModify]
    | succ i =>
      cases j with
      | zero => simp [listModify]
      | succ j =>
        simp only [listModify, List.get?]
        rw [ih]
        by_cases h : i = j <;> simp [h]

theorem cellAtN_mmodify (m : Maze) (r c r' c' : Nat) (f : Cell → Cell) :
    cellAtN (mmodify m r c f) r' c' =
      if r = r' ∧ c = c' then (cellAtN m r' c').map f else cellAtN m r' c' := by
  unfold cellAtN mmodify
  rw [get?_listModify]
  by_cases hr : r = r'
  · subst hr
    simp only [if_true]
    cases h : m.get? r with
    | none => simp [h]
    | some row =>
      simp only [Option.map_some', Option.some_bind]
      rw [get?_listModify]
      by_cases hc : c = c' <;> simp [hc]
  · simp [hr]

/-! ## MazeWalker.py: `create_maze`

The wall grid produced by the scanner is a `height × width` numpy integer
matrix; we model it as a function from (row, col) to entry together with
the two shape values (`grid.shape[0] = maze_height`,
`grid.shape[1] = maze_width`). -/

theorem and_two_pow_ne_iff (x i : Nat) : x &&& 2 ^ i ≠ 0 ↔ x.testBit i = true := by
  rw [Nat.and_two_pow]
  cases h : x.testBit i
  · simp
  · simp [(Nat.pos_pow_of_pos i (by norm_num : 0 < 2)).ne']

theorem and_wi_left_ne (x : Nat) : x &&& wi_left ≠ 0 ↔ x.testBit 0 = true := by
  have : wi_left = 2 ^ 0 := by norm_num [wi_left]
  rw [this, and_two_pow_ne_iff]

theorem and_wi_top_ne (x : Nat) : x &&& wi_top ≠ 0 ↔ x.testBit 1 = true := by
  have : wi_top = 2 ^ 1 := by norm_num [wi_top]
  rw [this, and_two_pow_ne_iff]

theorem and_wi_right_ne (x : Nat) : x &&& wi_right ≠ 0 ↔ x.testBit 2 = true := by
  have : wi_right = 2 ^ 2 := by norm_num [wi_right]
  rw [this, and_two_pow_ne_iff]

theorem and_wi_bottom_ne (x : Nat) : x &&& wi_bottom ≠ 0 ↔ x.testBit 3 = true := by
  have : wi_bottom = 2 ^ 3 := by norm_num [wi_bottom]
  rw [this, and_two_pow_ne_iff]

theorem ite_or_bit (c : Prop) [Decidable c] (x b : Nat) :
    (if c then x ||| b else x) = x ||| (if c then b else 0) := by
  by_cases h : c <;> simp [h]

/-- Fold-over-`List.range` induction principle. -/
theorem foldlRange_ind {α : Type} (n : Nat) (f : α → Nat → α) (a : α)
    (P : Nat → α → Prop) (h0 : P 0 a)
    (hs : ∀ i b, i < n → P i b → P (i + 1) (f b i)) :
    P n ((List.range n).foldl f a) := by
  induction n with
  | zero => simpa using h0
  | succ n ih =>
    rw [List.range_succ, List.foldl_append]
    exact hs n _ (Nat.lt_succ_self n)
      (ih (fun i b hi hb => hs i b (Nat.lt_succ_of_lt hi) hb))

/-! ## Closed form of `create_maze` -/

theorem testBit_ite_zero (c : Prop) [Decidable c] (b i : Nat)
    (hb : b.testBit i = false) : (if c then b else 0).testBit i = false := by
  by_cases h : c <;> simp [h, hb, Nat.zero_testBit]

theorem prop_wall_testBit3 (grid : Nat → Nat → Nat) (r c : Nat) :
    (prop_wall grid r c).testBit 3 = (grid r c).testBit 3 := by
  unfold prop_wall
  rw [Nat.testBit_or, Nat.testBit_or,
    testBit_ite_zero _ _ _ (by decide : wi_top.testBit 3 = false),
    testBit_ite_zero _ _ _ (by decide : wi_left.testBit 3 = false)]
  simp

theorem prop_wall_testBit2 (grid : Nat → Nat → Nat) (r c : Nat) :
    (prop_wall grid r c).testBit 2 = (grid r c).testBit 2 := by
  unfold prop_wall
  rw [Nat.testBit_or, Nat.testBit_or,
    testBit_ite_zero _ _ _ (by decide : wi_top.testBit 2 = false),
    testBit_ite_zero _ _ _ (by decide : wi_left.testBit 2 = false)]
  simp

theorem get?_range_closed (n m : Nat) :
    (List.range n).get? m = if m < n then some m else none := by
  by_cases h : m < n
  · simp [List.get?_range h, h]
  · simp [h, List.get?_len_le, List.length_range, Nat.le_of_not_lt h]

theorem init_cells_closed (grid : Nat → Nat → Nat) (h w r c : Nat) :
    cellAtN (init_cells grid h w) r c =
      if r < h ∧ c < w then some (Cell.init (grid r c)) else none := by
  unfold cellAtN init_cells
  rw [List.get?_map, get?_range_closed]
  by_cases hr : r < h
  · simp only [hr, if_true, Option.map_some', Option.some_bind]
    rw [List.get?_map, get?_range_closed]
    by_cases hc : c < w <;> simp [hr, hc]
  · simp [hr]

theorem wallHit_cell1_bottom (grid : Nat → Nat → Nat) (r c : Nat) :
    wallHit (some (cell1 grid r c)) wi_bottom = decide (grid r c &&& wi_bottom ≠ 0) := by
  show decide ((cell1 grid r c).wall_index &&& wi_bottom ≠ 0) = _
  rw [decide_eq_decide, and_wi_bottom_ne, and_wi_bottom_ne]
  show (prop_wall grid r c).testBit 3 = true ↔ _
  rw [prop_wall_testBit3]

theorem wallHit_cell1_right (grid : Nat → Nat → Nat) (r c : Nat) :
    wallHit (some (cell1 grid r c)) wi_right = decide (grid r c &&& wi_right ≠ 0) := by
  show decide ((cell1 grid r c).wall_index &&& wi_right ≠ 0) = _
  rw [decide_eq_decide, and_wi_right_ne, and_wi_right_ne]
  show (prop_wall grid r c).testBit 2 = true ↔ _
  rw [prop_wall_testBit2]

theorem prop_step_top_inv (grid : Nat → Nat → Nat) (h w R C : Nat)
    (hR : R < h) (hC : C < w) (m : Maze)
    (hm : ∀ r c, cellAtN m r c = cellExpect grid h w R C r c) :
    ∀ r c, cellAtN (prop_step_top m R C) r c =
      if R = r ∧ C = c then some (cellMid grid R C)
      else cellExpect grid h w R C r c := by
  have hprev : ∀ (_ : 0 < R), cellAtN m (R - 1) C = some (cell1 grid (R - 1) C) := by
    intro hR0
    rw [hm]
    unfold cellExpect
    have h1 : R - 1 < h := Nat.lt_of_le_of_lt (Nat.sub_le R 1) hR
    rw [if_pos ⟨h1, hC⟩, if_pos (Or.inl (Nat.sub_lt hR0 Nat.one_pos))]
  have hcur : cellAtN m R C = some (Cell.init (grid R C)) := by
    rw [hm]
    unfold cellExpect
    rw [if_pos ⟨hR, hC⟩, if_neg (by omega)]
  have econd : (0 < R ∧ wallHit (cellAtN m (R - 1) C) wi_bottom = true) ↔
      (0 < R ∧ grid (R - 1) C &&& wi_bottom ≠ 0) := by
    constructor
    · rintro ⟨hR0, ht⟩
      rw [hprev hR0, wallHit_cell1_bottom, decide_eq_true_eq] at ht
      exact ⟨hR0, ht⟩
    · rintro ⟨hR0, hb⟩
      rw [hprev hR0, wallHit_cell1_bottom, decide_eq_true_eq]
      exact ⟨hR0, hb⟩
  intro r c
  unfold prop_step_top
  by_cases hA : 0 < R ∧ grid (R - 1) C &&& wi_bottom ≠ 0
  · rw [if_pos (econd.mpr hA), cellAtN_mmodify]
    by_cases hrc : R = r ∧ C = c
    · rw [if_pos hrc, if_pos hrc]
      obtain ⟨hr', hc'⟩ := hrc
      subst hr'
      subst hc'
      rw [hcur]
      unfold cellMid Cell.init Cell.add_wall
      simp [hA]
    · rw [if_neg hrc, if_neg hrc, hm]
  · rw [if_neg (fun hx => hA (econd.mp hx))]
    by_cases hrc : R = r ∧ C = c
    · rw [if_pos hrc]
      obtain ⟨hr', hc'⟩ := hrc
      subst hr'
      subst hc'
      rw [hcur]
      unfold cellMid Cell.init
      simp [hA]
    · rw [if_neg hrc, hm]

theorem prop_step_left_inv (grid : Nat → Nat → Nat) (h w R C : Nat)
    (hR : R < h) (hC : C < w) (m : Maze)
    (hm : ∀ r c, cellAtN m r c =
      if R = r ∧ C = c then some (cellMid grid R C)
      else cellExpect grid h w R C r c) :
    ∀ r c, cellAtN (prop_step_left m R C) r c = cellExpect grid h w R (C + 1) r c := by
  have hleft : ∀ (_ : 0 < C), cellAtN m R (C - 1) = some (cell1 grid R (C - 1)) := by
    intro hC0
    rw [hm, if_neg (by omega)]
    unfold cellExpect
    have h1 : C - 1 < w := Nat.lt_of_le_of_lt (Nat.sub_le C 1) hC
    rw [if_pos ⟨hR, h1⟩, if_pos (Or.inr ⟨rfl, Nat.sub_lt hC0 Nat.one_pos⟩)]
  have hcur : cellAtN m R C = some (cellMid grid R C) := by
    rw [hm, if_pos ⟨rfl, rfl⟩]
  have econd : (0 < C ∧ wallHit (cellAtN m R (C - 1)) wi_right = true) ↔
      (0 < C ∧ grid R (C - 1) &&& wi_right ≠ 0) := by
    constructor
    · rintro ⟨hC0, ht⟩
      rw [hleft hC0, wallHit_cell1_right, decide_eq_true_eq] at ht
      exact ⟨hC0, ht⟩
    · rintro ⟨hC0, hb⟩
      rw [hleft hC0, wallHit_cell1_right, decide_eq_true_eq]
      exact ⟨hC0, hb⟩
  have target_eq : ∀ r c, ¬(R = r ∧ C = c) →
      cellExpect grid h w R C r c = cellExpect grid h w R (C + 1) r c := by
    intro r c hrc
    unfold cellExpect
    by_cases hin : r < h ∧ c < w
    · rw [if_pos hin, if_pos hin]
      have : (r < R ∨ (r = R ∧ c < C)) ↔ (r < R ∨ (r = R ∧ c < C + 1)) := by
        constructor
        · omega
        · intro hx
          rcases hx with hx | ⟨hx1, hx2⟩
          · exact Or.inl hx
          · right
            refine ⟨hx1, ?_⟩
            rcases Nat.lt_succ_iff_lt_or_eq.mp hx2 with hy | hy
            · exact hy
            · exact absurd ⟨hx1.symm, hy.symm⟩ hrc
      rw [if_congr this rfl rfl]
    · rw [if_neg hin, if_neg hin]
  have cell_target : cellExpect grid h w R (C + 1) R C = some (cell1 grid R C) := by
    unfold cellExpect
    rw [if_pos ⟨hR, hC⟩, if_pos (Or.inr ⟨rfl, Nat.lt_succ_self C⟩)]
  intro r c
  unfold prop_step_left
  by_cases hB : 0 < C ∧ grid R (C - 1) &&& wi_right ≠ 0
  · rw [if_pos (econd.mpr hB), cellAtN_mmodify]
    by_cases hrc : R = r ∧ C = c
    · obtain ⟨hr', hc'⟩ := hrc
      subst hr'
      subst hc'
      rw [if_pos ⟨rfl, rfl⟩, hcur, cell_target]
      unfold cellMid cell1 Cell.add_wall prop_wall
      simp [hB]
    · rw [if_neg hrc, hm, if_neg hrc, target_eq r c hrc]
  · rw [if_neg (fun hx => hB (econd.mp hx))]
    by_cases hrc : R = r ∧ C = c
    · obtain ⟨hr', hc'⟩ := hrc
      subst hr'
      subst hc'
      rw [hcur, cell_target]
      unfold cellMid cell1 prop_wall
      simp [hB]
    · rw [hm, if_neg hrc, target_eq r c hrc]

theorem prop_step_inv (grid : Nat → Nat → Nat) (h w R C : Nat)
    (hR : R < h) (hC : C < w) (m : Maze)
    (hm : ∀ r c, cellAtN m r c = cellExpect grid h w R C r c) :
    ∀ r c, cellAtN (prop_step m R C) r c = cellExpect grid h w R (C + 1) r c := by
  unfold prop_step
  exact prop_step_left_inv grid h w R C hR hC _
    (prop_step_top_inv grid h w R C hR hC m hm)

theorem propagate_closed (grid : Nat → Nat → Nat) (h w : Nat) :
    ∀ r c, cellAtN (propagate (init_cells grid h w) h w) r c =
      if r < h ∧ c < w then some (cell1 grid r c) else none := by
  unfold propagate
  have main := foldlRange_ind h
    (fun m row => (List.range w).foldl (fun m col => prop_step m row col) m)
    (init_cells grid h w)
    (fun R m => ∀ r c, cellAtN m r c = cellExpect grid h w R 0 r c)
    (by
      intro r c
      rw [init_cells_closed]
      unfold cellExpect
      by_cases hin : r < h ∧ c < w <;> simp [hin])
    (by
      intro R m hR hm
      have inner := foldlRange_ind w (fun m col => prop_step m R col) m
        (fun C m => ∀ r c, cellAtN m r c = cellExpect grid h w R C r c)
        hm
        (fun C m' hC hm' => prop_step_inv grid h w R C hR hC m' hm')
      intro r c
      rw [inner r c]
      unfold cellExpect
      by_cases hin : r < h ∧ c < w
      · rw [if_pos hin, if_pos hin]
        have : (r < R ∨ (r = R ∧ c < w)) ↔ (r < R + 1 ∨ (r = R + 1 ∧ c < 0)) := by
          constructor
          · intro hx
            rcases hx with hx | ⟨hx1, _⟩
            · exact Or.inl (Nat.lt_succ_of_lt hx)
            · exact Or.inl (by omega)
          · intro hx
            rcases hx with hx | ⟨_, hx2⟩
            · rcases Nat.lt_succ_iff_lt_or_eq.mp hx with hy | hy
              · exact Or.inl hy
              · exact Or.inr ⟨hy, hin.2⟩
            · omega
        rw [if_congr this rfl rfl]
      · rw [if_neg hin, if_neg hin])
  intro r c
  rw [main r c]
  unfold cellExpect
  by_cases hin : r < h ∧ c < w
  · rw [if_pos hin, if_pos hin, if_pos (Or.inl hin.1)]
  · rw [if_neg hin, if_neg hin]

theorem or_two_pow_of_testBit (x i : Nat) (h : x.testBit i = true) :
    x ||| 2 ^ i = x := by
  apply Nat.eq_of_testBit_eq
  intro j
  rw [Nat.testBit_or, Nat.testBit_two_pow]
  by_cases hj : i = j
  · subst hj
    simp [h]
  · simp [hj]

/-- Effect of one `if not <cell>.wall_index() & bit: <cell>.add_wall(bit)`
statement: the addressed cell ends with the bit ORed in (whether or not it
was already present), every other cell is untouched. -/
theorem seal_point_eff (m : Maze) (r0 c0 bit i : Nat) (hbit : bit = 2 ^ i)
    (cell0 : Cell) (hlook : cellAtN m r0 c0 = some cell0) :
    ∀ r c, cellAtN
      (if ¬ wallHit (cellAtN m r0 c0) bit then
        mmodify m r0 c0 (fun c => c.add_wall bit) else m) r c =
      if r0 = r ∧ c0 = c then
        some { cell0 with wall_index := cell0.wall_index ||| bit }
      else cellAtN m r c := by
  intro r c
  by_cases hw : wallHit (cellAtN m r0 c0) bit = true
  · rw [if_neg (by simp [hw])]
    by_cases hrc : r0 = r ∧ c0 = c
    · rw [if_pos hrc]
      obtain ⟨h1, h2⟩ := hrc
      subst h1
      subst h2
      rw [hlook]
      have ht : cell0.wall_index.testBit i = true := by
        rw [hlook] at hw
        have : cell0.wall_index &&& bit ≠ 0 := by
          simpa [wallHit] using hw
        rw [hbit] at this
        exact (and_two_pow_ne_iff _ _).mp this
      have : cell0.wall_index ||| bit = cell0.wall_index := by
        rw [hbit]
        exact or_two_pow_of_testBit _ _ ht
      rw [this]
    · rw [if_neg hrc]
  · rw [if_pos (by simp [hw]), cellAtN_mmodify]
    by_cases hrc : r0 = r ∧ c0 = c
    · rw [if_pos hrc, if_pos hrc]
      obtain ⟨h1, h2⟩ := hrc
      subst h1
      subst h2
      rw [hlook]
      rfl
    · rw [if_neg hrc, if_neg hrc]

theorem cellTB_zero (grid : Nat → Nat → Nat) (h r c : Nat) :
    cellTB grid h 0 r c = cell1 grid r c := by
  unfold cellTB cell1
  simp

theorem cellTB_congr (grid : Nat → Nat → Nat) (h K K' r c : Nat)
    (hc1 : (r = 0 ∧ c < K) ↔ (r = 0 ∧ c < K'))
    (hc2 : (r = h - 1 ∧ c < K) ↔ (r = h - 1 ∧ c < K')) :
    cellTB grid h K r c = cellTB grid h K' r c := by
  unfold cellTB
  rw [if_congr hc1 rfl rfl, if_congr hc2 rfl rfl]

theorem seal_tb_step_inv (grid : Nat → Nat → Nat) (h w K : Nat)
    (hh : 0 < h) (hK : K < w) (m : Maze)
    (hm : ∀ r c, cellAtN m r c =
      if r < h ∧ c < w then some (cellTB grid h K r c) else none) :
    ∀ r c, cellAtN (seal_tb_step h m K) r c =
      if r < h ∧ c < w then some (cellTB grid h (K + 1) r c) else none := by
  have look0 : cellAtN m 0 K = some (cellTB grid h K 0 K) := by
    rw [hm, if_pos ⟨hh, hK⟩]
  have top_eff : ∀ r c, cellAtN (seal_top_step m K) r c =
      if 0 = r ∧ K = c then
        some { cellTB grid h K 0 K with
          wall_index := (cellTB grid h K 0 K).wall_index ||| wi_top }
      else cellAtN m r c := by
    intro r c
    unfold seal_top_step
    exact seal_point_eff m 0 K wi_top 1 (by norm_num [wi_top]) _ look0 r c
  by_cases hbot : h - 1 = 0
  · -- single-row maze: both statements address the same cell (0, K)
    have lookb : cellAtN (seal_top_step m K) (h - 1) K =
        some { cellTB grid h K 0 K with
          wall_index := (cellTB grid h K 0 K).wall_index ||| wi_top } := by
      rw [top_eff, if_pos ⟨hbot.symm, rfl⟩]
    have bot_eff : ∀ r c, cellAtN (seal_tb_step h m K) r c =
        if h - 1 = r ∧ K = c then
          some { cellTB grid h K 0 K with
            wall_index := (cellTB grid h K 0 K).wall_index ||| wi_top ||| wi_bottom }
        else cellAtN (seal_top_step m K) r c := by
      intro r c
      unfold seal_tb_step seal_bottom_step
      exact seal_point_eff _ (h - 1) K wi_bottom 3 (by norm_num [wi_bottom]) _ lookb r c
    intro r c
    rw [bot_eff]
    by_cases hrc : h - 1 = r ∧ K = c
    · obtain ⟨h1, h2⟩ := hrc
      subst h1
      subst h2
      rw [if_pos ⟨rfl, rfl⟩, if_pos (show h - 1 < h ∧ K < w from ⟨by omega, hK⟩)]
      simp [cellTB, (show ¬ (K < K) by omega), Nat.lt_succ_self, hbot]
    · rw [if_neg hrc, top_eff]
      by_cases hrc0 : 0 = r ∧ K = c
      · exact absurd ⟨by omega, hrc0.2⟩ hrc
      · rw [if_neg hrc0, hm]
        by_cases hin : r < h ∧ c < w
        · rw [if_pos hin, if_pos hin,
            cellTB_congr grid h K (K + 1) r c (by omega) (by omega)]
        · rw [if_neg hin, if_neg hin]
  · -- at least two rows: the two statements address distinct cells
    have lookb : cellAtN (seal_top_step m K) (h - 1) K =
        some (cellTB grid h K (h - 1) K) := by
      rw [top_eff, if_neg (by omega), hm, if_pos ⟨by omega, hK⟩]
    have bot_eff : ∀ r c, cellAtN (seal_tb_step h m K) r c =
        if h - 1 = r ∧ K = c then
          some { cellTB grid h K (h - 1) K with
            wall_index := (cellTB grid h K (h - 1) K).wall_index ||| wi_bottom }
        else cellAtN (seal_top_step m K) r c := by
      intro r c
      unfold seal_tb_step seal_bottom_step
      exact seal_point_eff _ (h - 1) K wi_bottom 3 (by norm_num [wi_bottom]) _ lookb r c
    intro r c
    rw [bot_eff]
    by_cases hrc : h - 1 = r ∧ K = c
    · obtain ⟨h1, h2⟩ := hrc
      subst h1
      subst h2
      rw [if_pos ⟨rfl, rfl⟩, if_pos (show h - 1 < h ∧ K < w from ⟨by omega, hK⟩)]
      simp [cellTB, (show ¬ (K < K) by omega), Nat.lt_succ_self, hbot]
    · rw [if_neg hrc, top_eff]
      by_cases hrc0 : 0 = r ∧ K = c
      · obtain ⟨h1, h2⟩ := hrc0
        subst h1
        subst h2
        rw [if_pos (show (0 : Nat) = 0 ∧ K = K from ⟨rfl, rfl⟩), if_pos ⟨hh, hK⟩]
        simp [cellTB, (show ¬ (K < K) by omega), Nat.lt_succ_self,
          (show ¬ ((0 : Nat) = h - 1) from fun hx => hbot hx.symm)]
      · rw [if_neg hrc0, hm]
        by_cases hin : r < h ∧ c < w
        · rw [if_pos hin, if_pos hin,
            cellTB_congr grid h K (K + 1) r c (by omega) (by omega)]
        · rw [if_neg hin, if_neg hin]

theorem cellLR_zero (grid : Nat → Nat → Nat) (h w r c : Nat) :
    cellLR grid h w 0 r c = cellTB grid h w r c := by
  unfold cellLR cellTB
  simp

theorem cellLR_congr (grid : Nat → Nat → Nat) (h w K K' r c : Nat)
    (hc1 : (c = 0 ∧ r < K) ↔ (c = 0 ∧ r < K'))
    (hc2 : (c = w - 1 ∧ r < K) ↔ (c = w - 1 ∧ r < K')) :
    cellLR grid h w K r c = cellLR grid h w K' r c := by
  unfold cellLR
  rw [if_congr hc1 rfl rfl, if_congr hc2 rfl rfl]

theorem seal_lr_step_inv (grid : Nat → Nat → Nat) (h w K : Nat)
    (hw : 0 < w) (hK : K < h) (m : Maze)
    (hm : ∀ r c, cellAtN m r c =
      if r < h ∧ c < w then some (cellLR grid h w K r c) else none) :
    ∀ r c, cellAtN (seal_lr_step w m K) r c =
      if r < h ∧ c < w then some (cellLR grid h w (K + 1) r c) else none := by
  have look0 : cellAtN m K 0 = some (cellLR grid h w K K 0) := by
    rw [hm, if_pos ⟨hK, hw⟩]
  have left_eff : ∀ r c, cellAtN (seal_left_step m K) r c =
      if K = r ∧ 0 = c then
        some { cellLR grid h w K K 0 with
          wall_index := (cellLR grid h w K K 0).wall_index ||| wi_left }
      else cellAtN m r c := by
    intro r c
    unfold seal_left_step
    exact seal_point_eff m K 0 wi_left 0 (by norm_num [wi_left]) _ look0 r c
  by_cases hrt : w - 1 = 0
  · -- single-column maze: both statements address the same cell (K, 0)
    have lookb : cellAtN (seal_left_step m K) K (w - 1) =
        some { cellLR grid h w K K 0 with
          wall_index := (cellLR grid h w K K 0).wall_index ||| wi_left } := by
      rw [left_eff, if_pos ⟨rfl, hrt.symm⟩]
    have right_eff : ∀ r c, cellAtN (seal_lr_step w m K) r c =
        if K = r ∧ w - 1 = c then
          some { cellLR grid h w K K 0 with
            wall_index := (cellLR grid h w K K 0).wall_index ||| wi_left ||| wi_right }
        else cellAtN (seal_left_step m K) r c := by
      intro r c
      unfold seal_lr_step seal_right_step
      exact seal_point_eff _ K (w - 1) wi_right 2 (by norm_num [wi_right]) _ lookb r c
    intro r c
    rw [right_eff]
    by_cases hrc : K = r ∧ w - 1 = c
    · obtain ⟨h1, h2⟩ := hrc
      subst h1
      subst h2
      rw [if_pos ⟨rfl, rfl⟩, if_pos (show K < h ∧ w - 1 < w from ⟨hK, by omega⟩)]
      simp [cellLR, (show ¬ (K < K) by omega), Nat.lt_succ_self, hrt]
    · rw [if_neg hrc, left_eff]
      by_cases hrc0 : K = r ∧ 0 = c
      · exact absurd ⟨hrc0.1, by omega⟩ hrc
      · rw [if_neg hrc0, hm]
        by_cases hin : r < h ∧ c < w
        · rw [if_pos hin, if_pos hin,
            cellLR_congr grid h w K (K + 1) r c (by omega) (by omega)]
        · rw [if_neg hin, if_neg hin]
  · -- at least two columns: the two statements address distinct cells
    have lookb : cellAtN (seal_left_step m K) K (w - 1) =
        some (cellLR grid h w K K (w - 1)) := by
      rw [left_eff, if_neg (by omega), hm, if_pos ⟨hK, by omega⟩]
    have right_eff : ∀ r c, cellAtN (seal_lr_step w m K) r c =
        if K = r ∧ w - 1 = c then
          some { cellLR grid h w K K (w - 1) with
            wall_index := (cellLR grid h w K K (w - 1)).wall_index ||| wi_right }
        else cellAtN (seal_left_step m K) r c := by
      intro r c
      unfold seal_lr_step seal_right_step
      exact seal_point_eff _ K (w - 1) wi_right 2 (by norm_num [wi_right]) _ lookb r c
    intro r c
    rw [right_eff]
    by_cases hrc : K = r ∧ w - 1 = c
    · obtain ⟨h1, h2⟩ := hrc
      subst h1
      subst h2
      rw [if_pos ⟨rfl, rfl⟩, if_pos (show K < h ∧ w - 1 < w from ⟨hK, by omega⟩)]
      simp [cellLR, (show ¬ (K < K) by omega), Nat.lt_succ_self, hrt]
    · rw [if_neg hrc, left_eff]
      by_cases hrc0 : K = r ∧ 0 = c
      · obtain ⟨h1, h2⟩ := hrc0
        subst h1
        subst h2
        rw [if_pos (show K = K ∧ (0 : Nat) = 0 from ⟨rfl, rfl⟩), if_pos ⟨hK, hw⟩]
        simp [cellLR, (show ¬ (K < K) by omega), Nat.lt_succ_self,
          (show ¬ ((0 : Nat) = w - 1) from fun hx => hrt hx.symm)]
      · rw [if_neg hrc0, hm]
        by_cases hin : r < h ∧ c < w
        · rw [if_pos hin, if_pos hin,
            cellLR_congr grid h w K (K + 1) r c (by omega) (by omega)]
        · rw [if_neg hin, if_neg hin]

/-- Closed form for the whole of `create_maze`: each in-range cell carries
the propagated wall mask with all four boundary bits forced on the
corresponding boundary cells; `visited`/`direction` are freshly
initialised and `display_index` keeps the scanned entry. -/
theorem create_maze_closed (grid : Nat → Nat → Nat) (h w : Nat)
    (hh : 0 < h) (hw : 0 < w) :
    ∀ r c, cellAtN (create_maze grid h w) r c =
      if r < h ∧ c < w then some (cellLR grid h w h r c) else none := by
  have base1 : ∀ r c,
      cellAtN (propagate (init_cells grid h w) h w) r c =
        if r < h ∧ c < w then some (cellTB grid h 0 r c) else none := by
    intro r c
    rw [propagate_closed grid h w r c]
    by_cases hin : r < h ∧ c < w
    · rw [if_pos hin, if_pos hin, cellTB_zero]
    · rw [if_neg hin, if_neg hin]
  have tb := foldlRange_ind w (seal_tb_step h)
    (propagate (init_cells grid h w) h w)
    (fun K m => ∀ r c, cellAtN m r c =
      if r < h ∧ c < w then some (cellTB grid h K r c) else none)
    base1
    (fun K m hK hmK => seal_tb_step_inv grid h w K hh hK m hmK)
  have base2 : ∀ r c,
      cellAtN ((List.range w).foldl (seal_tb_step h)
        (propagate (init_cells grid h w) h w)) r c =
        if r < h ∧ c < w then some (cellLR grid h w 0 r c) else none := by
    intro r c
    rw [tb r c]
    by_cases hin : r < h ∧ c < w
    · rw [if_pos hin, if_pos hin, cellLR_zero]
    · rw [if_neg hin, if_neg hin]
  have lr := foldlRange_ind h (seal_lr_step w)
    ((List.range w).foldl (seal_tb_step h)
      (propagate (init_cells grid h w) h w))
    (fun K m => ∀ r c, cellAtN m r c =
      if r < h ∧ c < w then some (cellLR grid h w K r c) else none)
    base2
    (fun K m hK hmK => seal_lr_step_inv grid h w K hw hK m hmK)
  exact lr

theorem testBit_ite (P : Prop) [Decidable P] (b i : Nat) :
    (if P then b else 0).testBit i = (decide P && b.testBit i) := by
  by_cases h : P <;> simp [h, Nat.zero_testBit]

theorem cellLR_wall_testBit (grid : Nat → Nat → Nat) (h w K r c i : Nat) :
    (cellLR grid h w K r c).wall_index.testBit i =
      ((prop_wall grid r c).testBit i
        || (decide (r = 0 ∧ c < w) && wi_top.testBit i)
        || (decide (r = h - 1 ∧ c < w) && wi_bottom.testBit i)
        || (decide (c = 0 ∧ r < K) && wi_left.testBit i)
        || (decide (c = w - 1 ∧ r < K) && wi_right.testBit i)) := by
  unfold cellLR
  simp only [Nat.testBit_or, testBit_ite]

theorem prop_wall_testBit0 (grid : Nat → Nat → Nat) (r c : Nat) :
    (prop_wall grid r c).testBit 0 =
      ((grid r c).testBit 0 || decide (0 < c ∧ grid r (c - 1) &&& wi_right ≠ 0)) := by
  unfold prop_wall
  rw [Nat.testBit_or, Nat.testBit_or, testBit_ite, testBit_ite,
    (by decide : wi_top.testBit 0 = false), (by decide : wi_left.testBit 0 = true)]
  simp

theorem prop_wall_testBit1 (grid : Nat → Nat → Nat) (r c : Nat) :
    (prop_wall grid r c).testBit 1 =
      ((grid r c).testBit 1 || decide (0 < r ∧ grid (r - 1) c &&& wi_bottom ≠ 0)) := by
  unfold prop_wall
  rw [Nat.testBit_or, Nat.testBit_or, testBit_ite, testBit_ite,
    (by decide : wi_top.testBit 1 = true), (by decide : wi_left.testBit 1 = false)]
  simp

/-- C3: for every scanner-shaped wall grid, after `create_maze` every
boundary cell has the wall bit of each grid-coincident edge set: TOP on
row 0, BOTTOM on the last row, LEFT on column 0, RIGHT on the last
column. -/
theorem c3_boundary_sealed (grid : Nat → Nat → Nat) (h w : Nat)
    (hh : 0 < h) (hw : 0 < w) (_ : scanner_grid grid h w)
    (r c : Nat) (cell : Cell)
    (hcell : cellAtN (create_maze grid h w) r c = some cell) :
    (r = 0 → cell.wall_index &&& wi_top ≠ 0) ∧
    (r = h - 1 → cell.wall_index &&& wi_bottom ≠ 0) ∧
    (c = 0 → cell.wall_index &&& wi_left ≠ 0) ∧
    (c = w - 1 → cell.wall_index &&& wi_right ≠ 0) := by
  rw [create_maze_closed grid h w hh hw r c] at hcell
  by_cases hin : r < h ∧ c < w
  · rw [if_pos hin] at hcell
    obtain ⟨hr, hc⟩ := hin
    injection hcell with hcell
    subst hcell
    refine ⟨?_, ?_, ?_, ?_⟩
    · intro hr0
      rw [and_wi_top_ne, cellLR_wall_testBit]
      simp [hr0, hc, (by decide : wi_top.testBit 1 = true)]
    · intro hrb
      rw [and_wi_bottom_ne, cellLR_wall_testBit]
      simp [hrb, hc, (by decide : wi_bottom.testBit 3 = true)]
    · intro hc0
      rw [and_wi_left_ne, cellLR_wall_testBit]
      simp [hc0, hr, (by decide : wi_left.testBit 0 = true)]
    · intro hcr
      rw [and_wi_right_ne, cellLR_wall_testBit]
      simp [hcr, hr, (by decide : wi_right.testBit 2 = true)]
  · rw [if_neg hin] at hcell
    exact absurd hcell (by simp)

/-- Witness for C3 at a concrete input: the all-corridor 2×2 grid. -/
theorem c3_boundary_sealed_witness :
    (0 < 2 ∧ 0 < 2 ∧ scanner_grid (fun _ _ => 0) 2 2 ∧
      cellAtN (create_maze (fun _ _ => 0) 2 2) 0 0 = some ⟨3, 0, false, 0⟩) ∧
    ((0 = 0 → (3 : Nat) &&& wi_top ≠ 0) ∧
     (0 = 2 - 1 → (3 : Nat) &&& wi_bottom ≠ 0) ∧
     (0 = 0 → (3 : Nat) &&& wi_left ≠ 0) ∧
     (0 = 2 - 1 → (3 : Nat) &&& wi_right ≠ 0)) := by
  have hsc : scanner_grid (fun _ _ => 0) 2 2 := by
    intro r c _ _
    exact ⟨by norm_num, fun _ => by simp [Nat.zero_testBit],
      fun _ => by simp [Nat.zero_testBit]⟩
  have hcell : cellAtN (create_maze (fun _ _ => 0) 2 2) 0 0 =
      some ⟨3, 0, false, 0⟩ := by decide
  exact ⟨⟨by norm_num, by norm_num, hsc, hcell⟩,
    c3_boundary_sealed (fun _ _ => 0) 2 2 (by norm_num) (by norm_num) hsc
      0 0 ⟨3, 0, false, 0⟩ hcell⟩

/-- C4: for every scanner-shaped wall grid, after `create_maze` the left
bit of a cell with a left neighbour equals the scanned right bit of that
neighbour, and the top bit of a cell with an upper neighbour equals the
scanned bottom bit of that neighbour: shared walls are represented once in
the scan and inferred on the other side. -/
theorem c4_shared_walls (grid : Nat → Nat → Nat) (h w : Nat)
    (hh : 0 < h) (hw : 0 < w) (hsc : scanner_grid grid h w) :
    (∀ r c cellR cellL, r < h → 0 < c → c < w →
      cellAtN (create_maze grid h w) r c = some cellR →
      cellAtN (create_maze grid h w) r (c - 1) = some cellL →
      (cellR.wall_index &&& wi_left ≠ 0 ↔ cellL.wall_index &&& wi_right ≠ 0)) ∧
    (∀ r c cellB cellT, 0 < r → r < h → c < w →
      cellAtN (create_maze grid h w) r c = some cellB →
      cellAtN (create_maze grid h w) (r - 1) c = some cellT →
      (cellB.wall_index &&& wi_top ≠ 0 ↔ cellT.wall_index &&& wi_bottom ≠ 0)) := by
  constructor
  · intro r c cellR cellL hr hc0 hc hR hL
    rw [create_maze_closed grid h w hh hw r c, if_pos ⟨hr, hc⟩] at hR
    rw [create_maze_closed grid h w hh hw r (c - 1),
      if_pos ⟨hr, by omega⟩] at hL
    injection hR with hR
    injection hL with hL
    subst hR
    subst hL
    rw [and_wi_left_ne, and_wi_right_ne, cellLR_wall_testBit, cellLR_wall_testBit,
      prop_wall_testBit0, prop_wall_testBit2]
    have hbit0 : (grid r c).testBit 0 = false := (hsc r c hr hc).2.1 hc0
    have hnotc0 : ¬ (c = 0 ∧ r < h) := by omega
    have hnotcr : ¬ (c - 1 = w - 1 ∧ r < h) := by omega
    simp [hbit0, hnotc0, hnotcr, (by decide : wi_top.testBit 0 = false),
      (by decide : wi_bottom.testBit 0 = false), (by decide : wi_right.testBit 0 = false),
      (by decide : wi_top.testBit 2 = false), (by decide : wi_bottom.testBit 2 = false),
      (by decide : wi_left.testBit 2 = false), hc0, and_wi_right_ne]
  · intro r c cellB cellT hr0 hr hc hB hT
    rw [create_maze_closed grid h w hh hw r c, if_pos ⟨hr, hc⟩] at hB
    rw [create_maze_closed grid h w hh hw (r - 1) c,
      if_pos ⟨by omega, hc⟩] at hT
    injection hB with hB
    injection hT with hT
    subst hB
    subst hT
    rw [and_wi_top_ne, and_wi_bottom_ne, cellLR_wall_testBit, cellLR_wall_testBit,
      prop_wall_testBit1, prop_wall_testBit3]
    have hbit1 : (grid r c).testBit 1 = false := (hsc r c hr hc).2.2 hr0
    have hnotr0 : ¬ (r = 0 ∧ c < w) := by omega
    have hnotrb : ¬ (r - 1 = h - 1 ∧ c < w) := by omega
    simp [hbit1, hnotr0, hnotrb, (by decide : wi_left.testBit 1 = false),
      (by decide : wi_bottom.testBit 1 = false), (by decide : wi_right.testBit 1 = false),
      (by decide : wi_left.testBit 3 = false), (by decide : wi_top.testBit 3 = false),
      (by decide : wi_right.testBit 3 = false), hr0, and_wi_bottom_ne]

/-- Witness for C4 at a concrete input: a 2×2 grid with a single scanned
right wall on cell (0,0); the inferred left bit of (0,1) matches. -/
theorem c4_shared_walls_witness :
    (scanner_grid (fun r c => if r = 0 ∧ c = 0 then 4 else 0) 2 2 ∧
      cellAtN (create_maze (fun r c => if r = 0 ∧ c = 0 then 4 else 0) 2 2) 0 1 =
        some ⟨7, 0, false, 0⟩ ∧
      cellAtN (create_maze (fun r c => if r = 0 ∧ c = 0 then 4 else 0) 2 2) 0 0 =
        some ⟨7, 4, false, 0⟩) ∧
    ((7 : Nat) &&& wi_left ≠ 0 ↔ (7 : Nat) &&& wi_right ≠ 0) := by
  have hsc : scanner_grid (fun r c => if r = 0 ∧ c = 0 then 4 else 0) 2 2 := by
    intro r c _ _
    by_cases hrc : r = 0 ∧ c = 0 <;>
      simp only [hrc, if_true, if_false] <;>
        exact ⟨by norm_num, fun _ => by decide, fun _ => by decide⟩
  have h01 : cellAtN (create_maze (fun r c => if r = 0 ∧ c = 0 then 4 else 0) 2 2) 0 1 =
      some ⟨7, 0, false, 0⟩ := by decide
  have h00 : cellAtN (create_maze (fun r c => if r = 0 ∧ c = 0 then 4 else 0) 2 2) 0 0 =
      some ⟨7, 4, false, 0⟩ := by decide
  exact ⟨⟨hsc, h01, h00⟩,
    (c4_shared_walls (fun r c => if r = 0 ∧ c = 0 then 4 else 0) 2 2
      (by norm_num) (by norm_num) hsc).1 0 1 ⟨7, 0, false, 0⟩ ⟨7, 4, false, 0⟩
      (by norm_num) (by norm_num) (by norm_num) h01 h00⟩

/-! ## MazeWalker.py: `navigate_maze` / `find_paths`

The search addresses cells with Python's list indexing, which wraps
negative indices (`l[-1]` is the last element) and raises `IndexError`
otherwise; `pyIndex` resolves an index against a length accordingly. -/

/-- C1: the claim is false on the code.  On the sealed 1×2 maze with
start (0,0) and finish (0,1) the forward search fails, and on the state
`find_paths` hands to the second `navigate_maze` call the cell (0,0)
still has `visited = True`: `cell.clear_navigation` (MazeWalker.py:512,
535) reads the bound method without calling it, so nothing is cleared. -/
theorem c1_visited_not_cleared_before_second_search :
    (find_paths_mid 20 (create_maze (fun _ _ => 15) 1 2) (0, 0) (0, 1)).map
      (fun m => (mazeGet m 0 0).map Cell.visited) = some (some true) := by
  decide

/-- C2, counterexample: on the fully open 2×2 maze solved from (0,0) to
(1,1), `solve` returns the solved path
`[(-1,-1), (0,0), (0,0), (0,1), (1,1)]`; after removing the sentinel the
start cell appears twice, so the first consecutive pair has squared
distance 0, not 1 — the claim's adjacency property fails. -/
theorem c2_counterexample_duplicate_start :
    solve 20 (create_maze (fun _ _ => 0) 2 2) 2 2 (0, 0) (1, 1) =
      .ok (.solved [sentinel, (0, 0), (0, 0), (0, 1), (1, 1)]) ∧
    allAdjacent [((0 : Int), (0 : Int)), (0, 0), (0, 1), (1, 1)] = false := by
  exact ⟨by decide, by decide⟩

/-- C5: the claim is false on the code.  The run {17, 18, 19} with a cell
width of 10 is flushed to boundary index 2 (right wall on column 1) when
closed by a white pixel, but to boundary index 1 (right wall on column 0)
when the scan line ends on it: the end-of-line flush at MazeWalker.py:105
lacks the `+ 0.5` of the mid-line flush at line 91. -/
theorem c5_flush_rules_differ :
    flush_open [17, 18, 19] 10 ≠ flush_closed [17, 18, 19] 10 ∧
    scan_row (List.replicate 17 255 ++ [0, 0, 0]) 10 = [.rightAt 0] ∧
    scan_row (List.replicate 17 255 ++ [0, 0, 0] ++ [255]) 10 = [.rightAt 1] := by
  refine ⟨by decide, by decide, by decide⟩

/-- C6: the claim is false on the code.  For the dead-end paths
`[[(5,5)]]` and `[[(5,6),(4,5)]]` the returned coordinates list is
`[(5,5,4), (5,5,2)]` — duplicate-free but *not* sorted:
`coordinates.sort` (MazeWalker.py:692) lacks parentheses, so no sort
happens (unlike `suggestions.sort()` two lines above). -/
theorem c6_coordinates_not_sorted :
    find_suggestions [[((5 : Int), (5 : Int))]]
        [[((5 : Int), (6 : Int)), ((4 : Int), (5 : Int))]] =
      Except.ok [(5, 5, 4), (5, 5, 2)] ∧
    List.Nodup [(((5 : Int), (5 : Int), (4 : Nat))), (5, 5, 2)] ∧
    isSortedBy coordLe [(((5 : Int), (5 : Int), (4 : Nat))), (5, 5, 2)] = false := by
  refine ⟨by rfl, by decide, by decide⟩

/-- Any pair of integer coordinates at squared distance 1 differs by one
of the four axis-aligned unit shifts. -/
theorem dist_sq_one_cases (p q : Coord) (h : calc_distance_sq p q = 1) :
    (p.1 - q.1, p.2 - q.2) ∈
      [((-1 : Int), (0 : Int)), (1, 0), (0, -1), (0, 1)] := by
  unfold calc_distance_sq at h
  have h1 : -1 ≤ p.1 - q.1 := by nlinarith [sq_nonneg (p.2 - q.2)]
  have h2 : p.1 - q.1 ≤ 1 := by nlinarith [sq_nonneg (p.2 - q.2)]
  have h3 : -1 ≤ p.2 - q.2 := by nlinarith [sq_nonneg (p.1 - q.1)]
  have h4 : p.2 - q.2 ≤ 1 := by nlinarith [sq_nonneg (p.1 - q.1)]
  set a := p.1 - q.1 with ha
  set b := p.2 - q.2 with hb
  interval_cases a <;> interval_cases b <;>
    first
      | decide
      | exact absurd h (by decide)

theorem wallFromShift_isOk (p q : Coord) (h : calc_distance_sq p q = 1) :
    ∃ wall, wallFromShift p q = Except.ok wall := by
  have hm := dist_sq_one_cases p q h
  simp only [List.mem_cons, List.mem_singleton, List.not_mem_nil, or_false,
    Prod.mk.injEq] at hm
  unfold wallFromShift
  rcases hm with ⟨hr, hc⟩ | ⟨hr, hc⟩ | ⟨hr, hc⟩ | ⟨hr, hc⟩ <;>
    simp [hr, hc]

theorem foldlM_except_ok {α β ε : Type} (l : List α)
    (step : β → α → Except ε β) :
    ∀ init : β, (∀ acc x, x ∈ l → ∃ y, step acc x = Except.ok y) →
      ∃ res, l.foldlM step init = Except.ok res := by
  induction l with
  | nil =>
    intro init _
    exact ⟨init, rfl⟩
  | cons a l ih =>
    intro init h
    obtain ⟨y, hy⟩ := h init a (by simp)
    obtain ⟨res, hres⟩ := ih y (fun acc x hx => h acc x (by simp [hx]))
    refine ⟨res, ?_⟩
    simp only [List.foldlM_cons, hy]
    exact hres

theorem candidate_coords_isOk (fS fF : Path) :
    ∃ l, candidate_coords fS fF = Except.ok l := by
  unfold candidate_coords
  apply foldlM_except_ok
  intro acc ij hij
  have hd : calc_distance_sq ij.1 ij.2 = 1 := by
    have := List.of_mem_filter hij
    simpa using this
  obtain ⟨wall, hw⟩ := wallFromShift_isOk ij.1 ij.2 hd
  exact ⟨acc ++ [(ij.1.1, ij.1.2, wall)], by simp [hw, Except.map]⟩

theorem find_suggestions_isOk (from_start from_finish : List Path) :
    ∃ l, find_suggestions from_start from_finish = Except.ok l := by
  unfold find_suggestions
  have hmain : ∃ res, (from_start.foldlM (fun acc fStart =>
      from_finish.foldlM (fun acc2 fFinish =>
        (candidate_coords fStart fFinish).map (fun cs => acc2 ++ cs)) acc)
      ([] : List Coord3)) = Except.ok res := by
    apply foldlM_except_ok
    intro acc fStart _
    apply foldlM_except_ok
    intro acc2 fFinish _
    obtain ⟨l, hl⟩ := candidate_coords_isOk fStart fFinish
    exact ⟨acc2 ++ l, by simp [hl, Except.map]⟩
  obtain ⟨res, hres⟩ := hmain
  exact ⟨dedupFirst res, by rw [hres]; rfl⟩

/-- C8: a pair of integer cell coordinates at (squared) distance exactly
1 always differs by one of the four unit shifts, and consequently the
fatal `ValueError` branch of `find_suggestions` is unreachable: the
function returns `ok` on every input. -/
theorem c8_distance_one_pairs_axis_aligned :
    (∀ p q : Coord, calc_distance_sq p q = 1 →
      (p.1 - q.1, p.2 - q.2) ∈
        [((-1 : Int), (0 : Int)), (1, 0), (0, -1), (0, 1)]) ∧
    (∀ from_start from_finish : List Path, ∃ l,
      find_suggestions from_start from_finish = Except.ok l) :=
  ⟨dist_sq_one_cases, find_suggestions_isOk⟩

/-- Witness for C8 at a concrete input. -/
theorem c8_distance_one_pairs_axis_aligned_witness :
    calc_distance_sq ((0 : Int), (0 : Int)) ((0 : Int), (1 : Int)) = 1 ∧
    ((((0 : Int), (0 : Int)) : Coord).1 - (((0 : Int), (1 : Int)) : Coord).1,
     (((0 : Int), (0 : Int)) : Coord).2 - (((0 : Int), (1 : Int)) : Coord).2) ∈
      [((-1 : Int), (0 : Int)), (1, 0), (0, -1), (0, 1)] ∧
    ∃ l, find_suggestions [[((0 : Int), (0 : Int))]] [[((0 : Int), (1 : Int))]] =
      Except.ok l :=
  ⟨by decide,
    c8_distance_one_pairs_axis_aligned.1 ((0 : Int), (0 : Int))
      ((0 : Int), (1 : Int)) (by decide),
    c8_distance_one_pairs_axis_aligned.2 [[((0 : Int), (0 : Int))]]
      [[((0 : Int), (1 : Int))]]⟩

/-! ## Navigation lemmas: frame conditions, visited counting, termination -/

theorem map_listModify_congr {α β : Type} (l : List α) (i : Nat)
    (g : α → α) (F : α → β) (h : ∀ a, F (g a) = F a) :
    (listModify l i g).map F = l.map F := by
  induction l generalizing i with
  | nil => rfl
  | cons b l ih =>
    cases i with
    | zero => simp [listModify, h]
    | succ i => simp [listModify, ih]

theorem sum_map_listModify {α : Type} (l : List α) (i : Nat) (g : α → α)
    (F : α → Nat) (a : α) (h : l.get? i = some a) :
    ((listModify l i g).map F).sum + F a = (l.map F).sum + F (g a) := by
  induction l generalizing i with
  | nil => simp at h
  | cons b l ih =>
    cases i with
    | zero =>
      simp only [List.get?] at h
      injection h with h
      subst h
      simp [listModify]
      omega
    | succ i =>
      simp only [List.get?] at h
      have := ih i h
      simp [listModify]
      omega

theorem countP_listModify {α : Type} (l : List α) (i : Nat) (f : α → α)
    (p : α → Bool) (a : α) (h : l.get? i = some a) :
    (listModify l i f).countP p + (if p a then 1 else 0) =
      l.countP p + (if p (f a) then 1 else 0) := by
  induction l generalizing i with
  | nil => simp at h
  | cons b l ih =>
    cases i with
    | zero =>
      simp only [List.get?] at h
      injection h with h
      subst h
      simp [listModify, List.countP_cons]
      omega
    | succ i =>
      simp only [List.get?] at h
      have := ih i h
      simp [listModify, List.countP_cons]
      omega

theorem pyIndex_some_lt (n : Nat) (i : Int) (k : Nat)
    (h : pyIndex n i = some k) : k < n := by
  unfold pyIndex at h
  split at h
  · injection h with h
    omega
  · split at h
    · injection h with h
      omega
    · exact absurd h (by simp)

/-- Inversion of a successful `mazeGet`. -/
theorem mazeGet_some (m : Maze) (r c : Int) (cell : Cell)
    (h : mazeGet m r c = some cell) :
    ∃ i row j, pyIndex m.length r = some i ∧ m.get? i = some row ∧
      pyIndex row.length c = some j ∧ row.get? j = some cell := by
  unfold mazeGet at h
  split at h
  · exact absurd h (by simp)
  · rename_i i hi
    split at h
    · exact absurd h (by simp)
    · rename_i row hrow
      split at h
      · exact absurd h (by simp)
      · rename_i j hj
        exact ⟨i, row, j, hi, hrow, hj, h⟩

theorem mmodifyZ_eq_of_pyIndex (m : Maze) (r c : Int) (f : Cell → Cell)
    (i : Nat) (hi : pyIndex m.length r = some i) :
    mmodifyZ m r c f = listModify m i (fun row =>
      match pyIndex row.length c with
      | none => row
      | some j => listModify row j f) := by
  unfold mmodifyZ
  rw [hi]

/-- Any in-place mutation that does not change `wall_index` leaves the
wall grid unchanged. -/
theorem mazeWalls_mmodifyZ (m : Maze) (r c : Int) (f : Cell → Cell)
    (h : ∀ cell, (f cell).wall_index = cell.wall_index) :
    mazeWalls (mmodifyZ m r c f) = mazeWalls m := by
  unfold mmodifyZ
  cases hi : pyIndex m.length r with
  | none => rfl
  | some i =>
    unfold mazeWalls
    apply map_listModify_congr
    intro row
    cases hj : pyIndex row.length c with
    | none => rfl
    | some j =>
      simp only
      exact map_listModify_congr row j f _ (fun a => by rw [h a])

theorem countP_listModify_congr {α : Type} (l : List α) (i : Nat)
    (f : α → α) (p : α → Bool) (h : ∀ a, p (f a) = p a) :
    (listModify l i f).countP p = l.countP p := by
  induction l generalizing i with
  | nil => rfl
  | cons b l ih =>
    cases i with
    | zero => simp [listModify, List.countP_cons, h]
    | succ i => simp [listModify, List.countP_cons, ih]

/-- Any in-place mutation that does not change `visited` leaves the
unvisited count unchanged. -/
theorem unvisitedCount_mmodifyZ (m : Maze) (r c : Int) (f : Cell → Cell)
    (h : ∀ cell, (f cell).visited = cell.visited) :
    unvisitedCount (mmodifyZ m r c f) = unvisitedCount m := by
  unfold mmodifyZ
  cases hi : pyIndex m.length r with
  | none => rfl
  | some i =>
    unfold unvisitedCount
    rw [map_listModify_congr]
    intro row
    cases hj : pyIndex row.length c with
    | none => rfl
    | some j =>
      simp only
      exact countP_listModify_congr row j f _ (fun a => by simp [h a])

/-- Marking a currently unvisited cell visited decrements the unvisited
count by one. -/
theorem unvisitedCount_mark (m : Maze) (r c : Int) (cell : Cell)
    (hget : mazeGet m r c = some cell) (hv : cell.visited = false) :
    unvisitedCount (mmodifyZ m r c (fun c => { c with visited := true })) + 1 =
      unvisitedCount m := by
  obtain ⟨i, row, j, hi, hrow, hj, hcell⟩ := mazeGet_some m r c cell hget
  rw [mmodifyZ_eq_of_pyIndex m r c _ i hi]
  unfold unvisitedCount
  have hsum := sum_map_listModify m i
    (fun row => match pyIndex row.length c with
      | none => row
      | some j => listModify row j (fun c => { c with visited := true }))
    (fun row => row.countP (fun c => !c.visited)) row hrow
  simp only [hj] at hsum
  have hcount := countP_listModify row j (fun c => { c with visited := true })
    (fun c => !c.visited) cell hcell
  simp [hv] at hcount
  omega

theorem Mono.refl (m : Maze) : Mono m m := ⟨Eq.refl _, Nat.le_refl _⟩

theorem Mono.trans {m1 m2 m3 : Maze} (h1 : Mono m1 m2) (h2 : Mono m2 m3) :
    Mono m1 m3 :=
  ⟨h2.1.trans h1.1, h2.2.trans h1.2⟩

theorem Mono.direction (m : Maze) (r c : Int) (d : Nat) :
    Mono m (mmodifyZ m r c (fun cell => { cell with direction := d })) :=
  ⟨mazeWalls_mmodifyZ m r c _ (fun _ => Eq.refl _),
    Nat.le_of_eq (unvisitedCount_mmodifyZ m r c _ (fun _ => Eq.refl _))⟩

theorem Mono.mark (m : Maze) (r c : Int) (cell : Cell)
    (hget : mazeGet m r c = some cell) (hv : cell.visited = false) :
    Mono m (mmodifyZ m r c (fun cell => { cell with visited := true })) :=
  ⟨mazeWalls_mmodifyZ m r c _ (fun _ => Eq.refl _),
    by have := unvisitedCount_mark m r c cell hget hv; omega⟩

theorem try_move_mono (fuel : Nat) (t : Coord)
    (ih : ∀ maze f p a m', (navigate_maze fuel maze f t p a).mazeOf = some m' →
      Mono maze m')
    (row col : Int) (bit dir : Nat) (nc : Coord)
    (m : Maze) (p : Path) (a : List Path) (m' : Maze)
    (h : (try_move (fun mm nc2 pp aa => navigate_maze fuel mm nc2 t pp aa)
      row col bit dir nc m p a).mazeOf = some m') :
    Mono m m' := by
  unfold try_move at h
  cases hget : mazeGet m row col with
  | none =>
    rw [hget] at h
    simp only [NavRes.mazeOf, Option.some.injEq] at h
    subst h
    exact Mono.refl m
  | some cell =>
    rw [hget] at h
    dsimp only at h
    by_cases hcond : cell.wall_index &&& bit = 0 ∧ p.head? ≠ some sentinel
    · rw [if_pos hcond] at h
      exact (Mono.direction m row col dir).trans (ih _ _ _ _ _ h)
    · rw [if_neg hcond] at h
      simp only [NavRes.mazeOf, Option.some.injEq] at h
      subst h
      exact Mono.refl m

theorem andThen_mono_aux (r : NavRes) (k : Path → Maze → List Path → NavRes)
    (m0 m' : Maze)
    (hr : ∀ mm, r.mazeOf = some mm → Mono m0 mm)
    (hk : ∀ p mm a, r = .ret p mm a → ∀ m'', (k p mm a).mazeOf = some m'' →
      Mono mm m'')
    (h : (r.andThen k).mazeOf = some m') : Mono m0 m' := by
  cases r with
  | fuelOut => exact absurd h (by simp [NavRes.andThen, NavRes.mazeOf])
  | err mm aa =>
    simp only [NavRes.andThen, NavRes.mazeOf, Option.some.injEq] at h
    subst h
    exact hr _ rfl
  | ret p mm aa =>
    simp only [NavRes.andThen] at h
    exact (hr mm rfl).trans (hk p mm aa rfl m' h)

/-- The search only ever sets `visited` and `direction`: the wall grid is
unchanged and the unvisited count never grows, whatever state the call
returns (normally or through an `IndexError`). -/
theorem navigate_mono : ∀ (fuel : Nat) (maze : Maze) (f t : Coord) (p : Path)
    (a : List Path) (m' : Maze),
    (navigate_maze fuel maze f t p a).mazeOf = some m' → Mono maze m' := by
  intro fuel
  induction fuel with
  | zero =>
    intro maze f t p a m' h
    exact absurd h (by simp [navigate_maze, NavRes.mazeOf])
  | succ fuel ih =>
    intro maze f t p a m' h
    have ih' : ∀ (t : Coord) (maze : Maze) (f : Coord) (p : Path) (a : List Path)
        (m' : Maze), (navigate_maze fuel maze f t p a).mazeOf = some m' →
        Mono maze m' := fun t maze f p a m' h => ih maze f t p a m' h
    simp only [navigate_maze] at h
    by_cases hft : f = t
    · rw [if_pos hft] at h
      simp only [NavRes.mazeOf, Option.some.injEq] at h
      subst h
      exact Mono.refl maze
    · rw [if_neg hft] at h
      cases hget : mazeGet maze f.1 f.2 with
      | none =>
        rw [hget] at h
        simp only [NavRes.mazeOf, Option.some.injEq] at h
        subst h
        exact Mono.refl maze
      | some cell =>
        rw [hget] at h
        dsimp only at h
        by_cases hv : cell.visited = true
        · rw [if_pos hv] at h
          simp only [NavRes.mazeOf, Option.some.injEq] at h
          subst h
          exact Mono.refl maze
        · rw [if_neg hv] at h
          cases hh : p.head? with
          | none =>
            rw [hh] at h
            simp only [NavRes.mazeOf, Option.some.injEq] at h
            subst h
            exact Mono.refl maze
          | some hd =>
            rw [hh] at h
            dsimp only at h
            by_cases hsent : hd = sentinel
            · rw [if_pos hsent] at h
              simp only [NavRes.mazeOf, Option.some.injEq] at h
              subst h
              exact Mono.refl maze
            · rw [if_neg hsent] at h
              have hvf : cell.visited = false := by
                revert hv
                cases cell.visited <;> simp
              have hM1 : Mono maze
                  (mmodifyZ maze f.1 f.2 (fun c => { c with visited := true })) :=
                Mono.mark maze f.1 f.2 cell hget hvf
              refine hM1.trans (andThen_mono_aux _ _ _ m'
                (fun mm hmm => try_move_mono fuel t (ih' t) _ _ _ _ _ _ _ _ _ hmm)
                ?_ h)
              intro p2 m2 a2 _ m2' h2
              refine andThen_mono_aux _ _ _ m2'
                (fun mm hmm => try_move_mono fuel t (ih' t) _ _ _ _ _ _ _ _ _ hmm)
                ?_ h2
              intro p3 m3 a3 _ m3' h3
              refine andThen_mono_aux _ _ _ m3'
                (fun mm hmm => try_move_mono fuel t (ih' t) _ _ _ _ _ _ _ _ _ hmm)
                ?_ h3
              intro p4 m4 a4 _ m4' h4
              refine andThen_mono_aux _ _ _ m4'
                (fun mm hmm => try_move_mono fuel t (ih' t) _ _ _ _ _ _ _ _ _ hmm)
                ?_ h4
              intro p5 m5 a5 _ m5' h5
              by_cases hfin : p5.head? ≠ some sentinel
              · rw [if_pos hfin] at h5
                simp only [NavRes.mazeOf, Option.some.injEq] at h5
                subst h5
                exact Mono.refl m5
              · rw [if_neg hfin] at h5
                simp only [NavRes.mazeOf, Option.some.injEq] at h5
                subst h5
                exact Mono.refl m5

theorem find_paths_walls (fuel : Nat) (maze : Maze) (s f : Coord) (m' : Maze)
    (h : (find_paths fuel maze s f).mazeOf = some m') :
    mazeWalls m' = mazeWalls maze := by
  unfold find_paths clear_navigation_loop at h
  cases h1 : navigate_maze fuel maze s f [s] [] with
  | fuelOut => rw [h1] at h; exact absurd h (by simp [FPRes.mazeOf])
  | err mm aa => rw [h1] at h; exact absurd h (by simp [FPRes.mazeOf])
  | ret maze_path maze1 from_start =>
    rw [h1] at h
    have hw1 : mazeWalls maze1 = mazeWalls maze :=
      (navigate_mono fuel maze s f [s] [] maze1 (by rw [h1]; rfl)).1
    dsimp only at h
    by_cases hlen : maze_path.length > 1
    · rw [if_pos hlen] at h
      simp only [FPRes.mazeOf, Option.some.injEq] at h
      subst h
      exact hw1
    · rw [if_neg hlen] at h
      cases h2 : navigate_maze fuel maze1 f s [f] [] with
      | fuelOut => rw [h2] at h; exact absurd h (by simp [FPRes.mazeOf])
      | err mm aa => rw [h2] at h; exact absurd h (by simp [FPRes.mazeOf])
      | ret mp2 maze3 from_finish =>
        rw [h2] at h
        simp only [FPRes.mazeOf, Option.some.injEq] at h
        subst h
        exact ((navigate_mono fuel maze1 f s [f] [] _ (by rw [h2]; rfl)).1).trans hw1

/-- C10: the search is frame-preserving on walls: whatever maze state a
`navigate_maze` call (or the enclosing `find_paths`) leaves behind has
exactly the wall masks of the input maze — only `visited`/`direction`
are mutated. -/
theorem c10_walls_unchanged :
    (∀ fuel maze f t p a m',
      (navigate_maze fuel maze f t p a).mazeOf = some m' →
        mazeWalls m' = mazeWalls maze) ∧
    (∀ fuel maze s f m',
      (find_paths fuel maze s f).mazeOf = some m' →
        mazeWalls m' = mazeWalls maze) :=
  ⟨fun fuel maze f t p a m' h => (navigate_mono fuel maze f t p a m' h).1,
    find_paths_walls⟩

/-- Witness for C10 at a concrete input: the solved 2×2 search. -/
theorem c10_walls_unchanged_witness :
    ((navigate_maze 20 (create_maze (fun _ _ => 0) 2 2) (0, 0) (1, 1)
        [((0 : Int), (0 : Int))] []).mazeOf =
      some [[⟨3, 0, true, 256⟩, ⟨6, 0, true, 512⟩],
            [⟨9, 0, false, 0⟩, ⟨12, 0, false, 0⟩]]) ∧
    mazeWalls [[⟨3, 0, true, 256⟩, ⟨6, 0, true, 512⟩],
               [⟨9, 0, false, 0⟩, ⟨12, 0, false, 0⟩]] =
      mazeWalls (create_maze (fun _ _ => 0) 2 2) :=
  ⟨by decide,
    c10_walls_unchanged.1 20 (create_maze (fun _ _ => 0) 2 2) (0, 0) (1, 1)
      [((0 : Int), (0 : Int))] []
      [[⟨3, 0, true, 256⟩, ⟨6, 0, true, 512⟩],
       [⟨9, 0, false, 0⟩, ⟨12, 0, false, 0⟩]] (by decide)⟩

/-! ## Termination: enough fuel never runs out -/

theorem unvisitedCount_le_cellCount (m : Maze) :
    unvisitedCount m ≤ cellCount m := by
  unfold unvisitedCount cellCount
  induction m with
  | nil => simp
  | cons row rest ih =>
    simp only [List.map_cons, List.sum_cons]
    exact Nat.add_le_add (List.countP_le_length _) ih

theorem andThen_not_fuelOut (r : NavRes) (k : Path → Maze → List Path → NavRes)
    (hr : r ≠ .fuelOut)
    (hk : ∀ p m a, r = .ret p m a → k p m a ≠ .fuelOut) :
    r.andThen k ≠ .fuelOut := by
  cases r with
  | fuelOut => exact absurd rfl hr
  | err mm aa => simp [NavRes.andThen]
  | ret p mm aa => exact hk p mm aa rfl

theorem try_move_not_fuelOut (fuel : Nat) (t : Coord)
    (ihs : ∀ maze f p a, unvisitedCount maze < fuel →
      navigate_maze fuel maze f t p a ≠ NavRes.fuelOut)
    (row col : Int) (bit dir : Nat) (nc : Coord)
    (m : Maze) (p : Path) (a : List Path)
    (hm : unvisitedCount m < fuel) :
    try_move (fun mm nc2 pp aa => navigate_maze fuel mm nc2 t pp aa)
      row col bit dir nc m p a ≠ NavRes.fuelOut := by
  unfold try_move
  cases hget : mazeGet m row col with
  | none => simp
  | some cell =>
    dsimp only
    by_cases hcond : cell.wall_index &&& bit = 0 ∧ p.head? ≠ some sentinel
    · rw [if_pos hcond]
      apply ihs
      rw [unvisitedCount_mmodifyZ m row col
        (fun c => { c with direction := dir }) (fun _ => Eq.refl _)]
      exact hm
    · rw [if_neg hcond]
      simp

/-- With more fuel than there are unvisited cells, the search cannot run
out: each recursive call that passes the unvisited guard marks a fresh
cell visited first, so the recursion depth is bounded by the number of
unvisited cells plus one. -/
theorem navigate_fuel_sufficient : ∀ (fuel : Nat) (maze : Maze) (f t : Coord)
    (p : Path) (a : List Path), unvisitedCount maze < fuel →
    navigate_maze fuel maze f t p a ≠ NavRes.fuelOut := by
  intro fuel
  induction fuel with
  | zero =>
    intro maze f t p a h
    omega
  | succ fuel ih =>
    intro maze f t p a hcount
    have ihs : ∀ (t : Coord) (maze : Maze) (f : Coord) (p : Path) (a : List Path),
        unvisitedCount maze < fuel →
        navigate_maze fuel maze f t p a ≠ NavRes.fuelOut :=
      fun t maze f p a h => ih maze f t p a h
    simp only [navigate_maze]
    by_cases hft : f = t
    · rw [if_pos hft]
      simp
    · rw [if_neg hft]
      cases hget : mazeGet maze f.1 f.2 with
      | none => simp
      | some cell =>
        dsimp only
        by_cases hv : cell.visited = true
        · rw [if_pos hv]
          simp
        · rw [if_neg hv]
          cases hh : p.head? with
          | none => simp
          | some hd =>
            dsimp only
            by_cases hsent : hd = sentinel
            · rw [if_pos hsent]
              simp
            · rw [if_neg hsent]
              have hvf : cell.visited = false := by
                revert hv
                cases cell.visited <;> simp
              have hm1 : unvisitedCount
                  (mmodifyZ maze f.1 f.2 (fun c => { c with visited := true })) <
                  fuel := by
                have := unvisitedCount_mark maze f.1 f.2 cell hget hvf
                omega
              apply andThen_not_fuelOut
              · exact try_move_not_fuelOut fuel t (ihs t) _ _ _ _ _ _ _ _ hm1
              · intro p2 m2 a2 hs1
                have hm2 : unvisitedCount m2 < fuel :=
                  Nat.lt_of_le_of_lt
                    ((try_move_mono fuel t
                      (fun maze f p a m' h => navigate_mono fuel maze f t p a m' h)
                      _ _ _ _ _ _ _ _ m2 (by rw [hs1]; rfl)).2) hm1
                apply andThen_not_fuelOut
                · exact try_move_not_fuelOut fuel t (ihs t) _ _ _ _ _ _ _ _ hm2
                · intro p3 m3 a3 hs2
                  have hm3 : unvisitedCount m3 < fuel :=
                    Nat.lt_of_le_of_lt
                      ((try_move_mono fuel t
                        (fun maze f p a m' h => navigate_mono fuel maze f t p a m' h)
                        _ _ _ _ _ _ _ _ m3 (by rw [hs2]; rfl)).2) hm2
                  apply andThen_not_fuelOut
                  · exact try_move_not_fuelOut fuel t (ihs t) _ _ _ _ _ _ _ _ hm3
                  · intro p4 m4 a4 hs3
                    have hm4 : unvisitedCount m4 < fuel :=
                      Nat.lt_of_le_of_lt
                        ((try_move_mono fuel t
                          (fun maze f p a m' h => navigate_mono fuel maze f t p a m' h)
                          _ _ _ _ _ _ _ _ m4 (by rw [hs3]; rfl)).2) hm3
                    apply andThen_not_fuelOut
                    · exact try_move_not_fuelOut fuel t (ihs t) _ _ _ _ _ _ _ _ hm4
                    · intro p5 m5 a5 _
                      by_cases hfin : p5.head? ≠ some sentinel
                      · rw [if_pos hfin]
                        simp
                      · rw [if_neg hfin]
                        simp

/-- C9: for every finite maze and every origin/destination, the recursive
search terminates — with fuel exceeding the cell count the fuel never
runs out, because within one run `visited` is only ever set (the unvisited
count never increases), bounding the entries that pass the unvisited
guard. -/
theorem c9_navigate_terminates :
    (∀ fuel maze f t p a, cellCount maze < fuel →
      navigate_maze fuel maze f t p a ≠ NavRes.fuelOut) ∧
    (∀ fuel maze f t p a m',
      (navigate_maze fuel maze f t p a).mazeOf = some m' →
        unvisitedCount m' ≤ unvisitedCount maze) :=
  ⟨fun fuel maze f t p a h =>
    navigate_fuel_sufficient fuel maze f t p a
      (Nat.lt_of_le_of_lt (unvisitedCount_le_cellCount maze) h),
   fun fuel maze f t p a m' h => (navigate_mono fuel maze f t p a m' h).2⟩

/-- Witness for C9 at a concrete input. -/
theorem c9_navigate_terminates_witness :
    (cellCount (create_maze (fun _ _ => 0) 2 2) < 20 ∧
      navigate_maze 20 (create_maze (fun _ _ => 0) 2 2) (0, 0) (1, 1)
        [((0 : Int), (0 : Int))] [] ≠ NavRes.fuelOut) ∧
    ((navigate_maze 20 (create_maze (fun _ _ => 0) 2 2) (0, 0) (1, 1)
        [((0 : Int), (0 : Int))] []).mazeOf =
      some [[⟨3, 0, true, 256⟩, ⟨6, 0, true, 512⟩],
            [⟨9, 0, false, 0⟩, ⟨12, 0, false, 0⟩]] ∧
      unvisitedCount [[⟨3, 0, true, 256⟩, ⟨6, 0, true, 512⟩],
            [⟨9, 0, false, 0⟩, ⟨12, 0, false, 0⟩]] ≤
        unvisitedCount (create_maze (fun _ _ => 0) 2 2)) :=
  ⟨⟨by decide,
    c9_navigate_terminates.1 20 (create_maze (fun _ _ => 0) 2 2) (0, 0) (1, 1)
      [((0 : Int), (0 : Int))] [] (by decide)⟩,
   ⟨by decide,
    c9_navigate_terminates.2 20 (create_maze (fun _ _ => 0) 2 2) (0, 0) (1, 1)
      [((0 : Int), (0 : Int))] [] _ (by decide)⟩⟩

/-! ## C7: the solve operation on out-of-bounds endpoints -/

theorem mem_listModify {α : Type} (l : List α) (i : Nat) (g : α → α)
    (x : α) (hx : x ∈ listModify l i g) : x ∈ l ∨ ∃ a ∈ l, x = g a := by
  induction l generalizing i with
  | nil => simp [listModify] at hx
  | cons b l ih =>
    cases i with
    | zero =>
      simp only [listModify] at hx
      cases hx with
      | head => exact Or.inr ⟨b, by simp, rfl⟩
      | tail _ h => exact Or.inl (List.mem_cons_of_mem b h)
    | succ i =>
      simp only [listModify] at hx
      cases hx with
      | head => exact Or.inl (by simp)
      | tail _ h =>
        rcases ih i h with h' | ⟨a, ha, hxa⟩
        · exact Or.inl (by simp [h'])
        · exact Or.inr ⟨a, by simp [ha], hxa⟩

theorem mmodifyZ_length (m : Maze) (r c : Int) (f : Cell → Cell) :
    (mmodifyZ m r c f).length = m.length := by
  unfold mmodifyZ
  cases pyIndex m.length r with
  | none => rfl
  | some i => exact listModify_length m i _

theorem mmodifyZ_shape (m : Maze) (r c : Int) (f : Cell → Cell)
    (height width : Nat) (h : mazeShape m height width) :
    mazeShape (mmodifyZ m r c f) height width := by
  constructor
  · rw [mmodifyZ_length]
    exact h.1
  · intro row' hrow'
    unfold mmodifyZ at hrow'
    cases hpi : pyIndex m.length r with
    | none =>
      simp only [hpi] at hrow'
      exact h.2 row' hrow'
    | some i =>
      simp only [hpi] at hrow'
      rcases mem_listModify m i _ row' hrow' with hmem | ⟨row, hrowm, heq⟩
      · exact h.2 row' hmem
      · rw [heq]
        cases hpj : pyIndex row.length c with
        | none =>
          simp only [hpj]
          exact h.2 row hrowm
        | some j =>
          simp only [hpj]
          rw [listModify_length]
          exact h.2 row hrowm

theorem mazeGet_none_row (m : Maze) (height width : Nat)
    (hs : mazeShape m height width) (r c : Int)
    (hr0 : 0 ≤ r) (hr : (height : Int) ≤ r) : mazeGet m r c = none := by
  unfold mazeGet
  have hi : pyIndex m.length r = none := by
    unfold pyIndex
    rw [hs.1]
    rw [if_neg (by omega), if_neg (by omega)]
  simp only [hi]

theorem mazeGet_none_col (m : Maze) (height width : Nat)
    (hs : mazeShape m height width) (r c : Int)
    (hc0 : 0 ≤ c) (hc : (width : Int) ≤ c) : mazeGet m r c = none := by
  unfold mazeGet
  cases hi : pyIndex m.length r with
  | none => simp only [hi]
  | some i =>
    simp only [hi]
    cases hrow : m.get? i with
    | none => simp only [hrow]
    | some row =>
      simp only [hrow]
      have hpj : pyIndex row.length c = none := by
        unfold pyIndex
        rw [hs.2 row (List.get?_mem hrow)]
        rw [if_neg (by omega), if_neg (by omega)]
      simp only [hpj]

theorem mazeGet_some_inbounds (m : Maze) (height width : Nat)
    (hs : mazeShape m height width) (r c : Int)
    (hr : 0 ≤ r ∧ r < (height : Int)) (hc : 0 ≤ c ∧ c < (width : Int)) :
    ∃ cell, mazeGet m r c = some cell := by
  unfold mazeGet
  have hi : pyIndex m.length r = some r.toNat := by
    unfold pyIndex
    rw [hs.1, if_pos (by omega)]
  simp only [hi]
  have hlen : r.toNat < m.length := by
    rw [hs.1]
    omega
  cases hrow : m.get? r.toNat with
  | none =>
    rw [List.get?_eq_none] at hrow
    omega
  | some row =>
    simp only [hrow]
    have hw : row.length = width := hs.2 row (List.get?_mem hrow)
    have hj : pyIndex row.length c = some c.toNat := by
      unfold pyIndex
      rw [hw, if_pos (by omega)]
    simp only [hj]
    have hlc : c.toNat < row.length := by
      rw [hw]
      omega
    cases hcell : row.get? c.toNat with
    | none =>
      rw [List.get?_eq_none] at hcell
      omega
    | some cell => exact ⟨cell, rfl⟩

/-- C7: whenever `start` or `finish` lies outside the grid, the solve
operation raises an error — either the `ValueError` of
`CLProcessor.__check_inputs` or, where the swapped width/height checks let
an out-of-bounds cell through, the `IndexError` of the numpy lookup
`Maze[cell]` — and never returns `Solved` or `Unsolved`. -/
theorem c7_solve_out_of_bounds_errors (fuel : Nat) (maze : Maze)
    (width height : Nat) (start_cell finish_cell : Coord)
    (hs : mazeShape maze height width)
    (hoob : outOfBounds start_cell height width ∨
      outOfBounds finish_cell height width) :
    ∃ e, solve fuel maze width height start_cell finish_cell =
      SolveRes.error e := by
  by_cases hchk : check_inputs width height start_cell finish_cell = false
  · refine ⟨SolveErr.valueError, ?_⟩
    unfold solve
    rw [if_pos hchk]
  · have hchk' : check_inputs width height start_cell finish_cell = true := by
      revert hchk
      cases check_inputs width height start_cell finish_cell <;> simp
    have hcb : (0 ≤ start_cell.1 ∧ start_cell.1 < (width : Int)) ∧
        (0 ≤ finish_cell.1 ∧ finish_cell.1 < (width : Int)) ∧
        (0 ≤ start_cell.2 ∧ start_cell.2 < (height : Int)) ∧
        (0 ≤ finish_cell.2 ∧ finish_cell.2 < (height : Int)) := by
      have := hchk'
      simp only [check_inputs, Bool.and_eq_true, decide_eq_true_eq] at this
      tauto
    by_cases hsOOB : (height : Int) ≤ start_cell.1 ∨ (width : Int) ≤ start_cell.2
    · have hget : mazeGet maze start_cell.1 start_cell.2 = none := by
        rcases hsOOB with h1 | h2
        · exact mazeGet_none_row maze height width hs _ _ hcb.1.1 h1
        · exact mazeGet_none_col maze height width hs _ _ hcb.2.2.1.1 h2
      refine ⟨SolveErr.indexError, ?_⟩
      unfold solve
      rw [if_neg (by simp [hchk'])]
      unfold mazeModify?
      rw [hget]
    · have hfOOB : (height : Int) ≤ finish_cell.1 ∨
          (width : Int) ≤ finish_cell.2 := by
        rcases hoob with hoobS | hoobF
        · rcases hoobS with h | h | h | h
          · omega
          · omega
          · omega
          · omega
        · rcases hoobF with h | h | h | h
          · omega
          · exact Or.inl h
          · omega
          · exact Or.inr h
      obtain ⟨cellS, hgetS⟩ := mazeGet_some_inbounds maze height width hs
        start_cell.1 start_cell.2 ⟨hcb.1.1, by omega⟩ ⟨hcb.2.2.1.1, by omega⟩
      have hs2 : mazeShape
          (mmodifyZ maze start_cell.1 start_cell.2 Cell.set_as_start)
          height width :=
        mmodifyZ_shape maze _ _ _ height width hs
      have hgetF : mazeGet
          (mmodifyZ maze start_cell.1 start_cell.2 Cell.set_as_start)
          finish_cell.1 finish_cell.2 = none := by
        rcases hfOOB with h1 | h2
        · exact mazeGet_none_row _ height width hs2 _ _ hcb.2.1.1 h1
        · exact mazeGet_none_col _ height width hs2 _ _ hcb.2.2.2.1 h2
      refine ⟨SolveErr.indexError, ?_⟩
      unfold solve
      rw [if_neg (by simp [hchk'])]
      unfold mazeModify?
      rw [hgetS]
      dsimp only
      rw [hgetF]

/-- Witness for C7 at a concrete input: start row 2 on a 2×2 maze. -/
theorem c7_solve_out_of_bounds_errors_witness :
    mazeShape (create_maze (fun _ _ => 0) 2 2) 2 2 ∧
    (outOfBounds ((2 : Int), (0 : Int)) 2 2 ∨
      outOfBounds ((1 : Int), (1 : Int)) 2 2) ∧
    ∃ e, solve 20 (create_maze (fun _ _ => 0) 2 2) 2 2 (2, 0) (1, 1) =
      SolveRes.error e :=
  ⟨by constructor
      · decide
      · decide,
   Or.inl (by unfold outOfBounds; norm_num),
   c7_solve_out_of_bounds_errors 20 (create_maze (fun _ _ => 0) 2 2) 2 2
     (2, 0) (1, 1)
     ⟨by decide, by decide⟩
     (Or.inl (by unfold outOfBounds; norm_num))⟩

/-! ## The shape of a solved path -/

theorem openStepW_dist (W : List (List Nat)) (u v : Coord)
    (h : openStepW W u v) : calc_distance_sq u v = 1 := by
  obtain ⟨wi, _, hcase⟩ := h
  unfold calc_distance_sq
  rcases hcase with ⟨hv, _⟩ | ⟨hv, _⟩ | ⟨hv, _⟩ | ⟨hv, _⟩ <;> subst hv <;> ring

theorem mazeGet_wall (m : Maze) (r c : Int) :
    (mazeGet m r c).map Cell.wall_index = wallsAt (mazeWalls m) r c := by
  unfold mazeGet wallsAt mazeWalls
  rw [List.length_map]
  cases hi : pyIndex m.length r with
  | none => simp only [hi, Option.map_none']
  | some i =>
    simp only [hi, List.get?_map]
    cases hrow : m.get? i with
    | none => simp only [Option.map_none']
    | some row =>
      simp only [Option.map_some', List.length_map]
      cases hj : pyIndex row.length c with
      | none => simp only [hj, Option.map_none']
      | some j => simp only [hj, List.get?_map]

theorem head?_append_left {α : Type} (p q : List α) (x : α)
    (h : p.head? = some x) : (p ++ q).head? = some x := by
  cases p with
  | nil => simp at h
  | cons a p => simpa using h

theorem getLast?_cons_of_ne_nil {α : Type} (a : α) (l : List α)
    (h : l ≠ []) : (a :: l).getLast? = l.getLast? := by
  cases l with
  | nil => exact absurd rfl h
  | cons b l => exact List.getLast?_cons_cons

theorem chain'_cons_of_head {α : Type} (R : α → α → Prop) (a x : α)
    (l : List α) (hl : List.Chain' R l) (hh : l.head? = some x)
    (hax : R a x) : List.Chain' R (a :: l) := by
  cases l with
  | nil => simp at hh
  | cons b l =>
    injection hh with hh
    subst hh
    exact (List.chain'_cons).mpr ⟨hax, hl⟩

theorem try_move_shape (fuel : Nat) (t : Coord)
    (ihs : ∀ maze f p a p' m' a',
      navigate_maze fuel maze f t p a = NavRes.ret p' m' a' →
      RetShape (mazeWalls maze) f t p p')
    (row col : Int) (bit dir : Nat) (nc : Coord)
    (W : List (List Nat)) (f : Coord) (p1 : Path)
    (m : Maze) (pc : Path) (a : List Path) (p2 : Path) (m2 : Maze)
    (a2 : List Path)
    (hW : mazeWalls m = W)
    (hf : f = (row, col))
    (hdir : (nc = (row, col - 1) ∧ bit = wi_left) ∨
            (nc = (row - 1, col) ∧ bit = wi_top) ∨
            (nc = (row, col + 1) ∧ bit = wi_right) ∨
            (nc = (row + 1, col) ∧ bit = wi_bottom))
    (hinv : StageInv W f t p1 pc)
    (hret : try_move (fun mm nc2 pp aa => navigate_maze fuel mm nc2 t pp aa)
      row col bit dir nc m pc a = NavRes.ret p2 m2 a2) :
    StageInv W f t p1 p2 := by
  unfold try_move at hret
  cases hget : mazeGet m row col with
  | none =>
    rw [hget] at hret
    exact absurd hret (by simp)
  | some cell =>
    rw [hget] at hret
    dsimp only at hret
    by_cases hcond : cell.wall_index &&& bit = 0 ∧ pc.head? ≠ some sentinel
    · rw [if_pos hcond] at hret
      have hWd : mazeWalls (mmodifyZ m row col
          (fun c => { c with direction := dir })) = W := by
        rw [mazeWalls_mmodifyZ m row col
          (fun c => { c with direction := dir }) (fun _ => Eq.refl _), hW]
      have hshape := ihs _ _ _ _ _ _ _ hret
      rw [hWd] at hshape
      rcases hinv with hpc | ⟨chain0, hpc, _, _, _⟩
      · subst hpc
        rcases hshape with hp2 | ⟨chain, hp2, hne, hhd, hlast, hchain⟩
        · exact Or.inl hp2
        · refine Or.inr ⟨chain, hp2, hne, hlast, ?_⟩
          have hopen : openStepW W f nc := by
            subst hf
            refine ⟨cell.wall_index, ?_, ?_⟩
            · rw [← hW, ← mazeGet_wall]
              change (mazeGet m row col).map Cell.wall_index = some cell.wall_index
              rw [hget]
              rfl
            · rcases hdir with ⟨hv, hb⟩ | ⟨hv, hb⟩ | ⟨hv, hb⟩ | ⟨hv, hb⟩
              · exact Or.inl ⟨hv, by rw [← hb]; exact hcond.1⟩
              · exact Or.inr (Or.inl ⟨hv, by rw [← hb]; exact hcond.1⟩)
              · exact Or.inr (Or.inr (Or.inl ⟨hv, by rw [← hb]; exact hcond.1⟩))
              · exact Or.inr (Or.inr (Or.inr ⟨hv, by rw [← hb]; exact hcond.1⟩))
          exact chain'_cons_of_head _ f nc chain hchain hhd hopen
      · exfalso
        apply hcond.2
        rw [hpc]
        rfl
    · rw [if_neg hcond] at hret
      injection hret with h1 _ _
      subst h1
      exact hinv

theorem andThen_ret_inv (r : NavRes) (k : Path → Maze → List Path → NavRes)
    (p' : Path) (m' : Maze) (a' : List Path)
    (h : r.andThen k = NavRes.ret p' m' a') :
    ∃ pA mA aA, r = NavRes.ret pA mA aA ∧ k pA mA aA = NavRes.ret p' m' a' := by
  cases r with
  | fuelOut => exact absurd h (by simp [NavRes.andThen])
  | err mm aa => exact absurd h (by simp [NavRes.andThen])
  | ret pA mA aA => exact ⟨pA, mA, aA, rfl, h⟩

/-- The path returned by `navigate_maze` is either the input path
unchanged or a sentinel-marked solution: the input path followed by a
non-empty walk of wall-legal moves from the entered cell to the
destination. -/
theorem navigate_ret_shape : ∀ (fuel : Nat) (maze : Maze) (f t : Coord)
    (p : Path) (a : List Path) (p' : Path) (m' : Maze) (a' : List Path),
    navigate_maze fuel maze f t p a = NavRes.ret p' m' a' →
    RetShape (mazeWalls maze) f t p p' := by
  intro fuel
  induction fuel with
  | zero =>
    intro maze f t p a p' m' a' h
    exact absurd h (by simp [navigate_maze])
  | succ fuel ih =>
    intro maze f t p a p' m' a' h
    have ihs : ∀ (t : Coord) (maze : Maze) (f : Coord) (p : Path)
        (a : List Path) (p' : Path) (m' : Maze) (a' : List Path),
        navigate_maze fuel maze f t p a = NavRes.ret p' m' a' →
        RetShape (mazeWalls maze) f t p p' :=
      fun t maze f p a p' m' a' h => ih maze f t p a p' m' a' h
    simp only [navigate_maze] at h
    by_cases hft : f = t
    · rw [if_pos hft] at h
      injection h with h1 _ _
      subst h1
      refine Or.inr ⟨[f], rfl, by simp, by simp, by simp [hft], ?_⟩
      exact List.chain'_singleton f
    · rw [if_neg hft] at h
      cases hget : mazeGet maze f.1 f.2 with
      | none =>
        rw [hget] at h
        exact absurd h (by simp)
      | some cell =>
        rw [hget] at h
        dsimp only at h
        by_cases hv : cell.visited = true
        · rw [if_pos hv] at h
          injection h with h1 _ _
          exact Or.inl h1.symm
        · rw [if_neg hv] at h
          cases hh : p.head? with
          | none =>
            rw [hh] at h
            exact absurd h (by simp)
          | some hd =>
            rw [hh] at h
            dsimp only at h
            by_cases hsent : hd = sentinel
            · rw [if_pos hsent] at h
              injection h with h1 _ _
              exact Or.inl h1.symm
            · rw [if_neg hsent] at h
              have hW1 : mazeWalls (mmodifyZ maze f.1 f.2
                  (fun c => { c with visited := true })) = mazeWalls maze :=
                mazeWalls_mmodifyZ maze f.1 f.2
                  (fun c => { c with visited := true }) (fun _ => Eq.refl _)
              obtain ⟨pA, mA, aA, hs1, h⟩ := andThen_ret_inv _ _ _ _ _ h
              obtain ⟨pB, mB, aB, hs2, h⟩ := andThen_ret_inv _ _ _ _ _ h
              obtain ⟨pC, mC, aC, hs3, h⟩ := andThen_ret_inv _ _ _ _ _ h
              obtain ⟨pD, mD, aD, hs4, h⟩ := andThen_ret_inv _ _ _ _ _ h
              have hmono := fun (maze : Maze) (f : Coord) (p : Path)
                  (a : List Path) (m' : Maze)
                  (hx : (navigate_maze fuel maze f t p a).mazeOf = some m') =>
                navigate_mono fuel maze f t p a m' hx
              have invA : StageInv (mazeWalls maze) f t (p ++ [f]) pA :=
                try_move_shape fuel t (ihs t) f.1 f.2 wi_left go_left
                  (f.1, f.2 - 1) (mazeWalls maze) f (p ++ [f]) _ (p ++ [f]) a
                  pA mA aA hW1 rfl (Or.inl ⟨rfl, rfl⟩) (Or.inl rfl) hs1
              have hWA : mazeWalls mA = mazeWalls maze :=
                ((try_move_mono fuel t hmono f.1 f.2 wi_left go_left
                  (f.1, f.2 - 1) _ (p ++ [f]) a mA
                  (by rw [hs1]; rfl)).1).trans hW1
              have invB : StageInv (mazeWalls maze) f t (p ++ [f]) pB :=
                try_move_shape fuel t (ihs t) f.1 f.2 wi_top go_up
                  (f.1 - 1, f.2) (mazeWalls maze) f (p ++ [f]) mA pA aA
                  pB mB aB hWA rfl (Or.inr (Or.inl ⟨rfl, rfl⟩)) invA hs2
              have hWB : mazeWalls mB = mazeWalls maze :=
                ((try_move_mono fuel t hmono f.1 f.2 wi_top go_up
                  (f.1 - 1, f.2) mA pA aA mB (by rw [hs2]; rfl)).1).trans hWA
              have invC : StageInv (mazeWalls maze) f t (p ++ [f]) pC :=
                try_move_shape fuel t (ihs t) f.1 f.2 wi_right go_right
                  (f.1, f.2 + 1) (mazeWalls maze) f (p ++ [f]) mB pB aB
                  pC mC aC hWB rfl (Or.inr (Or.inr (Or.inl ⟨rfl, rfl⟩))) invB hs3
              have hWC : mazeWalls mC = mazeWalls maze :=
                ((try_move_mono fuel t hmono f.1 f.2 wi_right go_right
                  (f.1, f.2 + 1) mB pB aB mC (by rw [hs3]; rfl)).1).trans hWB
              have invD : StageInv (mazeWalls maze) f t (p ++ [f]) pD :=
                try_move_shape fuel t (ihs t) f.1 f.2 wi_bottom go_down
                  (f.1 + 1, f.2) (mazeWalls maze) f (p ++ [f]) mC pC aC
                  pD mD aD hWC rfl
                  (Or.inr (Or.inr (Or.inr ⟨rfl, rfl⟩))) invC hs4
              by_cases hfin : pD.head? ≠ some sentinel
              · rw [if_pos hfin] at h
                injection h with h1 _ _
                subst h1
                rcases invD with hpD | ⟨chain, hpD, _, _, _⟩
                · subst hpD
                  exact Or.inl (List.dropLast_concat)
                · exfalso
                  apply hfin
                  rw [hpD]
                  rfl
              · rw [if_neg hfin] at h
                injection h with h1 _ _
                subst h1
                rcases invD with hpD | ⟨chain, hpD, hne, hlast, hchain⟩
                · exfalso
                  apply hsent
                  have hps : pD.head? = some sentinel := not_not.mp hfin
                  rw [hpD, head?_append_left p [f] hd hh] at hps
                  exact Option.some.inj hps
                · refine Or.inr ⟨f :: chain, ?_, by simp, rfl, ?_, hchain⟩
                  · rw [hpD, List.append_assoc]
                    rfl
                  · rw [getLast?_cons_of_ne_nil f chain hne]
                    exact hlast

theorem set_direction_wall (c : Cell) (d : Nat) :
    (c.set_direction d).wall_index = c.wall_index := by
  unfold Cell.set_direction
  split <;> rfl

theorem set_as_start_wall (c : Cell) :
    c.set_as_start.wall_index = c.wall_index := by
  unfold Cell.set_as_start
  split <;> rfl

theorem set_as_finish_wall (c : Cell) (b : Bool) :
    (c.set_as_finish b).wall_index = c.wall_index := by
  have hc1 : ∀ c1 : Cell, c1.wall_index = c.wall_index →
      (if b = true then c1.set_direction go_nodir
       else c1.set_direction go_none).wall_index = c.wall_index := by
    intro c1 h1
    by_cases hb : b = true
    · rw [if_pos hb, set_direction_wall, h1]
    · rw [if_neg hb, set_direction_wall, h1]
  unfold Cell.set_as_finish
  apply hc1
  split
  · rfl
  · rfl

theorem mazeModify?_walls (m : Maze) (r c : Int) (f : Cell → Cell) (m2 : Maze)
    (h : mazeModify? m r c f = some m2)
    (hf : ∀ cell, (f cell).wall_index = cell.wall_index) :
    mazeWalls m2 = mazeWalls m := by
  unfold mazeModify? at h
  cases hget : mazeGet m r c with
  | none =>
    rw [hget] at h
    exact absurd h (by simp)
  | some cell =>
    rw [hget] at h
    injection h with h
    subst h
    exact mazeWalls_mmodifyZ m r c f hf

/-- A `success` result of `find_paths` always carries a sentinel-marked
path of the form `sentinel :: start :: chain` where `chain` is a legal
walk from the start cell to the finish cell (the start cell appearing
again as the head of `chain`). -/
theorem find_paths_success_shape (fuel : Nat) (maze : Maze) (s f : Coord)
    (mp : Path) (m1 : Maze) (fs : List Path)
    (h : find_paths fuel maze s f = FPRes.success mp m1 fs) :
    ∃ chain, mp = sentinel :: s :: chain ∧ chain.head? = some s ∧
      chain.getLast? = some f ∧
      List.Chain' (openStepW (mazeWalls maze)) chain := by
  unfold find_paths clear_navigation_loop at h
  cases h1 : navigate_maze fuel maze s f [s] [] with
  | fuelOut =>
    rw [h1] at h
    exact absurd h (by simp)
  | err mm aa =>
    rw [h1] at h
    exact absurd h (by simp)
  | ret maze_path maze1 from_start =>
    rw [h1] at h
    dsimp only at h
    by_cases hlen : maze_path.length > 1
    · rw [if_pos hlen] at h
      injection h with he1 _ _
      subst he1
      have hshape := navigate_ret_shape fuel maze s f [s] [] _ _ _ h1
      rcases hshape with heq | ⟨chain, heq, _, hhd, hlast, hchain⟩
      · subst heq
        simp at hlen
      · refine ⟨chain, ?_, hhd, hlast, hchain⟩
        rw [heq]
        rfl
    · rw [if_neg hlen] at h
      cases h2 : navigate_maze fuel maze1 f s [f] [] with
      | fuelOut =>
        rw [h2] at h
        exact absurd h (by simp)
      | err mm aa =>
        rw [h2] at h
        exact absurd h (by simp)
      | ret mp2 maze3 from_finish =>
        rw [h2] at h
        exact absurd h (by simp)

/-- C2, amended: if `solve` returns a solved path, the path is the
sentinel, then the start cell, then a walk from the start cell to the
finish cell; after removing the sentinel the first element is the start
cell and the last is the finish cell, but the start cell is duplicated —
every consecutive pair *except the leading duplicate* is grid-adjacent
(squared distance 1) with the wall bit of the earlier cell toward the
later cell clear. -/
theorem c2_amended_solved_path (fuel : Nat) (maze : Maze)
    (width height : Nat) (start_cell finish_cell : Coord) (path : Path)
    (h : solve fuel maze width height start_cell finish_cell =
      SolveRes.ok (SolveOutcome.solved path)) :
    path.head? = some sentinel ∧
    ∃ chain, path = sentinel :: start_cell :: chain ∧
      chain.head? = some start_cell ∧
      chain.getLast? = some finish_cell ∧
      List.Chain' (openStepW (mazeWalls maze)) chain ∧
      List.Chain' (fun u v : Coord => calc_distance_sq u v = 1) chain := by
  unfold solve at h
  by_cases hchk : check_inputs width height start_cell finish_cell = false
  · rw [if_pos hchk] at h
    exact absurd h (by simp)
  · rw [if_neg hchk] at h
    cases hm1 : mazeModify? maze start_cell.1 start_cell.2 Cell.set_as_start with
    | none =>
      rw [hm1] at h
      exact absurd h (by simp)
    | some mazeA =>
      rw [hm1] at h
      dsimp only at h
      cases hm2 : mazeModify? mazeA finish_cell.1 finish_cell.2
          (fun c => c.set_as_finish false) with
      | none =>
        rw [hm2] at h
        exact absurd h (by simp)
      | some mazeB =>
        rw [hm2] at h
        dsimp only at h
        have hwA : mazeWalls mazeA = mazeWalls maze :=
          mazeModify?_walls maze _ _ _ mazeA hm1 set_as_start_wall
        have hwB : mazeWalls mazeB = mazeWalls mazeA :=
          mazeModify?_walls mazeA _ _ _ mazeB hm2
            (fun cell => set_as_finish_wall cell false)
        cases hfp : find_paths fuel mazeB start_cell finish_cell with
        | fuelOut =>
          rw [hfp] at h
          exact absurd h (by simp)
        | err =>
          rw [hfp] at h
          exact absurd h (by simp)
        | success mp mX fsX =>
          rw [hfp] at h
          dsimp only at h
          by_cases hsent : mp.head? = some sentinel
          · rw [if_pos hsent] at h
            injection h with h'
            injection h' with h''
            subst h''
            obtain ⟨chain, heq, hhd, hlast, hchain⟩ :=
              find_paths_success_shape fuel mazeB _ _ _ _ _ hfp
            rw [hwB, hwA] at hchain
            exact ⟨by rw [heq]; rfl, chain, heq, hhd, hlast, hchain,
              hchain.imp (fun a b hx => openStepW_dist _ a b hx)⟩
          · rw [if_neg hsent] at h
            exact absurd h (by simp)
        | failure fs ff mX =>
          rw [hfp] at h
          dsimp only at h
          cases hhd : fs.head? with
          | none =>
            rw [hhd] at h
            exact absurd h (by simp)
          | some p0 =>
            rw [hhd] at h
            dsimp only at h
            cases hsug : find_suggestions fs ff with
            | error e =>
              rw [hsug] at h
              exact absurd h (by simp)
            | ok coords =>
              rw [hsug] at h
              exact absurd h (by simp)

/-- Witness for the amended C2 at a concrete input: the solved 2×2
maze. -/
theorem c2_amended_solved_path_witness :
    solve 20 (create_maze (fun _ _ => 0) 2 2) 2 2 (0, 0) (1, 1) =
      SolveRes.ok (SolveOutcome.solved
        [sentinel, (0, 0), (0, 0), (0, 1), (1, 1)]) ∧
    (([sentinel, ((0 : Int), (0 : Int)), (0, 0), (0, 1), (1, 1)] : Path).head? =
        some sentinel ∧
      ∃ chain, ([sentinel, ((0 : Int), (0 : Int)), (0, 0), (0, 1), (1, 1)] : Path) =
          sentinel :: ((0 : Int), (0 : Int)) :: chain ∧
        chain.head? = some ((0 : Int), (0 : Int)) ∧
        chain.getLast? = some ((1 : Int), (1 : Int)) ∧
        List.Chain' (openStepW (mazeWalls (create_maze (fun _ _ => 0) 2 2))) chain ∧
        List.Chain' (fun u v : Coord => calc_distance_sq u v = 1) chain) :=
  ⟨by decide,
    c2_amended_solved_path 20 (create_maze (fun _ _ => 0) 2 2) 2 2
      (0, 0) (1, 1) [sentinel, (0, 0), (0, 0), (0, 1), (1, 1)] (by decide)⟩


/-! ## MazeCell.py: class attributes (wall and direction indices) -/

end MazeWalker
